import Mathlib

/-!
Shallow embedding of the Project Synchronization Engine of the boardlly
repository (src/api/app/services/github.py, webhook.py and the webhook
router), together with proofs about the frozen claims.

Modelling conventions, used uniformly below:
* Python `datetime` values (always normalized to UTC by the code) are
  modelled as `Int` timestamps in seconds; `timedelta(days = n)` is
  `n * 86400`.
* Python `Optional[T]` is `Option T`; a Python truthiness test
  (`if not x:`) on an optional string checks `none` or `""`, on an
  optional datetime it checks `none` (datetimes are never falsy), on an
  optional list it checks `none` or `[]`.
* Raw ISO-8601 date strings are abstracted by `DateStr`: `valid t` is a
  string that `datetime.fromisoformat` parses to the UTC instant `t`,
  `invalid` is an empty or unparsable string.  `parse_date_value` below
  mirrors the source function at that level of abstraction.
* Fallible functions return `Except HErr _` where `HErr` carries the
  HTTP status code and detail of the raised `HTTPException`.
-/

namespace Boardlly

/-- UTC timestamps in seconds; `timedelta(days=1)` is 86400. -/
abbrev DateTime := Int

/-- Seconds in one day, the unit of `timedelta(days=...)`. -/
def oneDay : Int := 86400

/-- Models Python `str.strip()`: drop leading and trailing whitespace. -/
def pyStrip (s : String) : String :=
  String.mk (((s.toList.dropWhile Char.isWhitespace).reverse.dropWhile Char.isWhitespace).reverse)

/-- Models Python `str.lower()` on the character inventory the code uses:
ASCII letters and the Latin-1 uppercase accented range (for the alias
`épico`). -/
def pyLowerChar (c : Char) : Char :=
  if 'A' ≤ c ∧ c ≤ 'Z' then Char.ofNat (c.toNat + 32)
  else if 0xC0 ≤ c.toNat ∧ c.toNat ≤ 0xDE ∧ c.toNat ≠ 0xD7 then Char.ofNat (c.toNat + 32)
  else c

/-- Models Python `str.lower()` (see `pyLowerChar`). -/
def pyLower (s : String) : String := String.mk (s.toList.map pyLowerChar)

/-- Python truthiness of an optional string: `none` and `""` are falsy. -/
def truthyStr : Option String → Bool
  | none => false
  | some s => s ≠ ""

/-- Models Python `a or b` on two optional strings: `b` when `a` is falsy. -/
def pyOrStr (a b : Option String) : Option String :=
  if truthyStr a then a else b

/-- Models Python `int(s)` on a decimal string: strip whitespace, optional
sign, then digits; anything else raises `ValueError`, modelled as `none`.
(Underscore digit grouping, accepted by CPython, is not modelled; no
caller relies on it.) -/
def pyIntOfString (s : String) : Option Int :=
  let t := pyStrip s
  let signed : Int × List Char :=
    match t.toList with
    | '+' :: rest => (1, rest)
    | '-' :: rest => (-1, rest)
    | l => (1, l)
  match signed with
  | (sign, digits) =>
    if digits = [] then none
    else if digits.all Char.isDigit then
      some (sign * (digits.foldl (fun a c => a * 10 + (Int.ofNat (c.toNat - 48))) 0))
    else none

/-- Abstraction of a raw ISO-8601 date string: `valid t` parses to the UTC
instant `t`; `invalid` is an empty or unparsable string. -/
inductive DateStr
  | invalid
  | valid (t : Int)
deriving DecidableEq, Repr

/-- Models `parse_date_value` (github.py): `None` or an empty/unparsable
string yields `None`; otherwise the parsed instant, normalized to UTC. -/
def parse_date_value : Option DateStr → Option Int
  | none => none
  | some .invalid => none
  | some (.valid t) => some t

/-- A raw JSON value appearing as an iteration `duration` payload:
null, a string, or an integer. -/
inductive PyVal
  | vnone
  | vstr (s : String)
  | vint (n : Int)
deriving DecidableEq, Repr

/-- Models Python `int(x)` for the payload shapes `duration` can take:
`int(None)` raises `TypeError` (`none`), strings go through `pyIntOfString`,
integers are returned as they are. -/
def pyToInt : PyVal → Option Int
  | .vnone => none
  | .vstr s => pyIntOfString s
  | .vint n => some n

/-- Models `compute_iteration_end` (github.py): `None` when the start is
absent or the duration is `None`/`""`; otherwise try `int(duration)` and,
on success, return `start + timedelta(days=duration)`. -/
def compute_iteration_end (start : Option Int) (duration_value : PyVal) : Option Int :=
  match start with
  | none => none
  | some s =>
    if duration_value = .vnone ∨ duration_value = .vstr "" then none
    else
      match pyToInt duration_value with
      | none => none
      | some n => some (s + n * oneDay)

/-! Field-value parser (`parse_field_details`).  One raw field-value node of
an item is a GraphQL union member, seen by the Python code as a dict with
`__typename`, `field.name` and the member-specific payload keys. -/

/-- The alias sets of github.py, kept as data exactly as in the source. -/
def START_DATE_ALIASES : List String := ["start date", "start", "kickoff", "início", "inicio"]

/-- END_DATE_ALIASES of github.py. -/
def END_DATE_ALIASES : List String := ["end date", "finish", "fim", "conclusão", "conclusao"]

/-- DUE_DATE_ALIASES of github.py. -/
def DUE_DATE_ALIASES : List String := ["due date", "target date", "deadline", "entrega"]

/-- EPIC_FIELD_ALIASES of github.py. -/
def EPIC_FIELD_ALIASES : List String := ["epic", "épico", "epico", "parent issue", "parent", "epic link"]

/-- One raw per-field value node attached to an item, as read by
`parse_field_details`: `fieldName` is `node["field"]["name"]` (`none` for a
missing or falsy name), `typename` is `node["__typename"]`, and the other
components are the payload keys the code reads (`number`, `name`,
`optionId`/`optionIDs`, `title`, `iterationId`, `startDate`, `duration`,
`date`, `text`). -/
structure FieldNode where
  fieldName : Option String := none
  typename : Option String := none
  number : Option Int := none
  nameVal : Option String := none
  optionId : Option String := none
  optionIDs : Option (List String) := none
  title : Option String := none
  iterationId : Option String := none
  startDate : Option DateStr := none
  duration : PyVal := .vnone
  date : Option DateStr := none
  text : Option String := none
deriving DecidableEq, Repr

/-- A value stored in the flat name→value map built by the parser. -/
inductive PyAny
  | pnone
  | pstr (s : String)
  | pint (n : Int)
  | pdate (d : Option DateStr)
deriving DecidableEq, Repr

/-- Python dict assignment `d[k] = v`: replace in place or append. -/
def dictSet : List (String × PyAny) → String → PyAny → List (String × PyAny)
  | [], k, v => [(k, v)]
  | (k', v') :: rest, k, v =>
    if k' = k then (k, v) :: rest else (k', v') :: dictSet rest k v

/-- Lift an optional string payload into the value map (absent → `None`). -/
def anyOfStr : Option String → PyAny
  | none => .pnone
  | some s => .pstr s

/-- Lift an optional number payload into the value map. -/
def anyOfInt : Option Int → PyAny
  | none => .pnone
  | some n => .pint n

/-- The `ParsedFieldDetails` dataclass of github.py with all fields
defaulting to `None`. -/
structure ParsedFieldDetails where
  iteration_title : Option String := none
  iteration_id : Option String := none
  iteration_start : Option Int := none
  iteration_end : Option Int := none
  start_date : Option Int := none
  end_date : Option Int := none
  due_date : Option Int := none
  epic_option_id : Option String := none
  epic_value : Option String := none
deriving DecidableEq, Repr

/-- Models `option_id = node.get("optionId") or node.get("optionIDs")`
followed by collapsing a list to its first element (or `None`). -/
def pickOptionId (oid : Option String) (oids : Option (List String)) : Option String :=
  let fromList : Option (List String) → Option String :=
    fun l => match l with
      | none => none
      | some [] => none
      | some (x :: _) => some x
  match oid with
  | some s => if s ≠ "" then some s else fromList oids
  | none => fromList oids

/-- One pass of the `for node in nodes` loop body of `parse_field_details`,
mirroring the `__typename` dispatch of the source. -/
def parseFieldNodeStep (acc : List (String × PyAny) × ParsedFieldDetails) (node : FieldNode) :
    List (String × PyAny) × ParsedFieldDetails :=
  match node.fieldName with
  | none => acc
  | some name =>
    if name = "" then acc
    else
      let values := acc.1
      let details := acc.2
      let lower_name := pyLower name
      match node.typename with
      | some "ProjectV2ItemFieldNumberValue" =>
        (dictSet values name (anyOfInt node.number), details)
      | some "ProjectV2ItemFieldSingleSelectValue" =>
        let values := dictSet values name (anyOfStr node.nameVal)
        if lower_name ∈ EPIC_FIELD_ALIASES then
          (values, { details with
            epic_value := node.nameVal,
            epic_option_id := pickOptionId node.optionId node.optionIDs })
        else (values, details)
      | some "ProjectV2ItemFieldIterationValue" =>
        let values := dictSet values name (anyOfStr node.title)
        let istart := parse_date_value node.startDate
        (values, { details with
          iteration_title := node.title,
          iteration_id := node.iterationId,
          iteration_start := istart,
          iteration_end := compute_iteration_end istart node.duration })
      | some "ProjectV2ItemFieldDateValue" =>
        let values := dictSet values name (PyAny.pdate node.date)
        match parse_date_value node.date with
        | none => (values, details)
        | some date_value =>
          if lower_name ∈ START_DATE_ALIASES ∧ details.start_date = none then
            (values, { details with start_date := some date_value })
          else if lower_name ∈ END_DATE_ALIASES ∧ details.end_date = none then
            (values, { details with end_date := some date_value })
          else if lower_name ∈ DUE_DATE_ALIASES ∧ details.due_date = none then
            (values, { details with due_date := some date_value })
          else (values, details)
      | some "ProjectV2ItemFieldTextValue" =>
        (dictSet values name (anyOfStr node.text), details)
      | _ =>
        (dictSet values name (anyOfStr node.text), details)

/-- The whole `for node in nodes` loop of `parse_field_details`. -/
def parseFieldLoop (acc : List (String × PyAny) × ParsedFieldDetails) :
    List FieldNode → List (String × PyAny) × ParsedFieldDetails
  | [] => acc
  | node :: rest => parseFieldLoop (parseFieldNodeStep acc node) rest

/-- The fallback chain run after the loop of `parse_field_details`:
start from iteration start, end from iteration end or due date, then
start := due − 1 day when only a due date exists. -/
def applyDateFallbacks (d : ParsedFieldDetails) : ParsedFieldDetails :=
  let d1 := match d.start_date, d.iteration_start with
    | none, some s => { d with start_date := some s }
    | _, _ => d
  let d2 := match d1.end_date with
    | some _ => d1
    | none =>
      match d1.iteration_end with
      | some e => { d1 with end_date := some e }
      | none =>
        match d1.due_date with
        | some due => { d1 with end_date := some due }
        | none => d1
  match d2.start_date, d2.due_date with
  | none, some due => { d2 with start_date := some (due - oneDay) }
  | _, _ => d2

/-- Models `parse_field_details` (github.py): run the loop over all nodes
starting from an empty value map and default details, then apply the
date fallback chain. -/
def parse_field_details (nodes : List FieldNode) :
    List (String × PyAny) × ParsedFieldDetails :=
  let r := parseFieldLoop ([], {}) nodes
  (r.1, applyDateFallbacks r.2)

/-! Cached project fields (the `github_project_field` table) and the raw
field catalog (`field_mappings`, one GraphQL field node per field name). -/

/-- One entry of a field's option payload.  In the source these are plain
JSON dicts; a single-select option uses `id`/`name`/`color`, an iteration
entry uses `id`/`title`/`startDate`/`duration`.  One structure models both
(absent keys are `none`), exactly as the untyped dicts do. -/
structure OptEntry where
  id : Option String := none
  name : Option String := none
  color : Option String := none
  title : Option String := none
  startDate : Option DateStr := none
  duration : PyVal := .vnone
deriving DecidableEq, Repr

/-- The `configuration` dict of an iteration field: `{iterations: [...]}`. -/
structure IterConfig where
  iterations : Option (List OptEntry) := none
deriving DecidableEq, Repr

/-- The `options` column of a cached field row: either the option list of a
single-select field or the configuration dict of an iteration field. -/
inductive OptionsPayload
  | plist (l : List OptEntry)
  | pdict (c : IterConfig)
deriving DecidableEq, Repr

/-- One row of the `github_project_field` table: `key` is the surrogate
primary key, the remaining columns are as in the model
(`field_id`, `field_name`, `field_type` are non-nullable strings). -/
structure FieldRow where
  key : Nat
  field_id : String
  field_name : String
  field_type : String
  options : Option OptionsPayload := none
deriving DecidableEq, Repr

/-- One raw GraphQL field node stored in `field_mappings`:
`{__typename, id, name, dataType, options?, configuration?}`. -/
structure FieldData where
  id : Option String := none
  dataType : Option String := none
  typename : Option String := none
  options : Option (List OptEntry) := none
  configuration : Option IterConfig := none
deriving DecidableEq, Repr

/-- First value bound to a key in an association list, models `dict.get`
(Python dict keys are unique, so first match is the match). -/
def lookupDict {α : Type} : List (String × α) → String → Option α
  | [], _ => none
  | (k', v) :: rest, k => if k' = k then some v else lookupDict rest k

/-- Substring test on character lists (Python `needle in hay`). -/
def subListOf (needle : List Char) : List Char → Bool
  | [] => needle.isEmpty
  | c :: rest => needle.isPrefixOf (c :: rest) || subListOf needle rest

/-- Python `needle in hay` on strings: substring containment. -/
def strInStr (needle hay : String) : Bool := subListOf needle.toList hay.toList

/-- The epic-candidate test of `_resolve_epic_field_from_collection`:
the lowered field type must be a single-select tag AND the lowered field
name must contain one of the epic aliases. -/
def isEpicField (f : FieldRow) : Bool :=
  (pyLower f.field_type = "single_select" || pyLower f.field_type = "projectv2singleselectfield") &&
    EPIC_FIELD_ALIASES.any (fun al => strInStr al (pyLower f.field_name))

/-- Models `_resolve_epic_field_from_collection` (github.py): first field
that passes the single-select type check and the alias name check; `None`
when no field qualifies. -/
def _resolve_epic_field_from_collection : List FieldRow → Option FieldRow
  | [] => none
  | f :: rest =>
    if isEpicField f then some f else _resolve_epic_field_from_collection rest

/-- Models `_resolve_iteration_field_from_collection` (github.py): first
field whose lowered type is an iteration tag or whose lowered name is
exactly "iteration". -/
def _resolve_iteration_field_from_collection : List FieldRow → Option FieldRow
  | [] => none
  | f :: rest =>
    if pyLower f.field_type = "iteration" || pyLower f.field_type = "projectv2iterationfield"
        || pyLower f.field_name = "iteration" then some f
    else _resolve_iteration_field_from_collection rest

/-- Models `_resolve_status_field` (github.py) after the rows are loaded:
first field whose lowered name is exactly "status". -/
def _resolve_status_field : List FieldRow → Option FieldRow
  | [] => none
  | f :: rest =>
    if pyLower f.field_name = "status" then some f else _resolve_status_field rest

/-- The option loop of `_match_status_option`: first option whose
name-or-title, stripped and lowered, equals the normalized target and
which carries a non-empty id. -/
def statusOptionLoop (normalized : String) : List OptEntry → Option String
  | [] => none
  | o :: rest =>
    match pyOrStr o.name o.title with
    | none => statusOptionLoop normalized rest
    | some n =>
      if pyLower (pyStrip n) = normalized then
        match o.id with
        | some oid => if oid ≠ "" then some oid else statusOptionLoop normalized rest
        | none => statusOptionLoop normalized rest
      else statusOptionLoop normalized rest

/-- Models `_match_status_option` (github.py).  A list payload is iterated
directly; a dict payload is the stored iteration `configuration`, which has
neither an "options" nor a "values" key, so it yields the empty iterable,
as does `None`. -/
def _match_status_option (options : Option OptionsPayload) (status_name : String) : Option String :=
  let normalized := pyLower (pyStrip status_name)
  let iterable : List OptEntry :=
    match options with
    | some (.plist l) => l
    | some (.pdict _) => []
    | none => []
  statusOptionLoop normalized iterable

/-- The option loop of `resolve_iteration_option`: first entry whose id
equals the target yields (title, parsed start, computed end). -/
def iterationOptionLoop (iteration_id : String) :
    List OptEntry → Option String × Option Int × Option Int
  | [] => (none, none, none)
  | o :: rest =>
    if o.id = some iteration_id then
      let start := parse_date_value o.startDate
      (o.title, start, compute_iteration_end start o.duration)
    else iterationOptionLoop iteration_id rest

/-- Models `resolve_iteration_option` (github.py): `(None, None, None)`
when the field or the id is absent/empty; otherwise scan the cached
iteration entries (`configuration.iterations` for a dict payload, the
list itself for a list payload). -/
def resolve_iteration_option (iteration_field : Option FieldRow) (iteration_id : Option String) :
    Option String × Option Int × Option Int :=
  match iteration_field, iteration_id with
  | none, _ => (none, none, none)
  | some _, none => (none, none, none)
  | some f, some iid =>
    if iid = "" then (none, none, none)
    else
      let iterations : List OptEntry :=
        match f.options with
        | none => []
        | some (.pdict c) => c.iterations.getD []
        | some (.plist l) => l
      iterationOptionLoop iid iterations

/-- The option loop of `resolve_epic_option`. -/
def epicOptionLoop (epic_option_id : String) : List OptEntry → Option String
  | [] => none
  | o :: rest =>
    if o.id = some epic_option_id then pyOrStr o.name o.title
    else epicOptionLoop epic_option_id rest

/-- Models `resolve_epic_option` (github.py): a dict payload is the stored
iteration configuration, which has no "options" key, hence the empty
entry list. -/
def resolve_epic_option (epic_field : Option FieldRow) (epic_option_id : Option String) :
    Option String :=
  match epic_field, epic_option_id with
  | none, _ => none
  | some _, none => none
  | some f, some oid =>
    if oid = "" then none
    else
      let entries : List OptEntry :=
        match f.options with
        | none => []
        | some (.pdict _) => []
        | some (.plist l) => l
      epicOptionLoop oid entries

/-- The field-type fallback of `sync_project_fields`:
`data.get("dataType") or data.get("__typename") or "UNKNOWN"`. -/
def fieldTypeOf (d : FieldData) : String :=
  match d.dataType with
  | some s =>
    if s ≠ "" then s
    else
      match d.typename with
      | some t => if t ≠ "" then t else "UNKNOWN"
      | none => "UNKNOWN"
  | none =>
    match d.typename with
    | some t => if t ≠ "" then t else "UNKNOWN"
    | none => "UNKNOWN"

/-- The options payload persisted by `sync_project_fields`: the `options`
list when present, else the `configuration` dict, else `None`. -/
def optionsOf (d : FieldData) : Option OptionsPayload :=
  match d.options with
  | some l => some (.plist l)
  | none =>
    match d.configuration with
    | some c => some (.pdict c)
    | none => none

/-- In-place update of the row with the given field id (unique per project
by the `uq_github_project_field_project_field` constraint): only name,
type and options change, the surrogate key and field id stay. -/
def updateRow : List FieldRow → String → String → String → Option OptionsPayload → List FieldRow
  | [], _, _, _, _ => []
  | r :: rest, fid, name, ftype, opts =>
    if r.field_id = fid then
      { r with field_name := name, field_type := ftype, options := opts } :: rest
    else r :: updateRow rest fid name ftype opts

/-- The `for name, data in field_mappings.items()` loop of
`sync_project_fields`: skip non-dict entries (`none`) and entries with a
falsy id; update the existing row in place or insert a new row; record the
id as seen.  `nextKey` models the autoincrement surrogate key. -/
def sync_fields_loop (rows : List FieldRow) (nextKey : Nat) (seen : List String) :
    List (String × Option FieldData) → List FieldRow × List String
  | [] => (rows, seen)
  | (name, dataOpt) :: rest =>
    match dataOpt with
    | none => sync_fields_loop rows nextKey seen rest
    | some data =>
      match data.id with
      | none => sync_fields_loop rows nextKey seen rest
      | some fid =>
        if fid = "" then sync_fields_loop rows nextKey seen rest
        else
          let ftype := fieldTypeOf data
          let opts := optionsOf data
          if rows.any (fun r => r.field_id == fid) then
            sync_fields_loop (updateRow rows fid name ftype opts) nextKey (seen ++ [fid]) rest
          else
            sync_fields_loop (rows ++ [⟨nextKey, fid, name, ftype, opts⟩])
              (nextKey + 1) (seen ++ [fid]) rest

/-- Models `sync_project_fields` (github.py): run the mapping loop, then
delete every row whose field id was not seen (under the per-project
uniqueness of field ids, the source's object-wise delete pass removes
exactly the rows whose id is not in `seen`). -/
def sync_project_fields (rows : List FieldRow) (startKey : Nat)
    (field_mappings : List (String × Option FieldData)) : List FieldRow :=
  let r := sync_fields_loop rows startKey [] field_mappings
  r.1.filter (fun row => decide (row.field_id ∈ r.2))

/-- The ids the loop of `sync_project_fields` actually processes: ids of
dict entries with a truthy id. -/
def validIds (field_mappings : List (String × Option FieldData)) : List String :=
  field_mappings.filterMap (fun p =>
    match p.2 with
    | some d =>
      match d.id with
      | some fid => if fid = "" then none else some fid
      | none => none
    | none => none)

/-- A row agrees with some catalog entry: there is a mapping entry whose id
is the row's field id and whose derived name, type and options are the
row's columns. -/
def matchesEntry (field_mappings : List (String × Option FieldData)) (r : FieldRow) : Prop :=
  ∃ name data, (name, some data) ∈ field_mappings ∧ data.id = some r.field_id ∧
    r.field_id ≠ "" ∧ r.field_name = name ∧ r.field_type = fieldTypeOf data ∧
    r.options = optionsOf data

/-- Concrete local rows used to exercise the field-cache sync: one row
whose id stays in the catalog and one row whose id disappears. -/
def sampleRows : List FieldRow :=
  [⟨1, "A", "Old name", "TEXT", none⟩, ⟨2, "B", "Stale", "TEXT", none⟩]

/-- Concrete fetched catalog: id "A" renamed, id "C" newly added, id "B"
absent (to be deleted). -/
def sampleCatalog : List (String × Option FieldData) :=
  [("New name", some { id := some "A", dataType := some "TEXT" }),
   ("Estimate", some { id := some "C", dataType := some "NUMBER" })]

/-- The `unique` accumulation of `extract_status_columns`: append each name
not yet present, keeping first-occurrence order. -/
def pyDedupAppend (names : List String) : List String :=
  names.foldl (fun acc n => if n ∈ acc then acc else acc ++ [n]) []

/-- Models `extract_status_columns` (github.py): read the "Status" entry of
the raw field catalog, require a non-empty option list, collect the truthy
option names, de-duplicate preserving order, and append "Done" when it is
not already present. -/
def extract_status_columns (field_mappings : List (String × FieldData)) : Option (List String) :=
  match lookupDict field_mappings "Status" with
  | none => none
  | some status_field =>
    match status_field.options with
    | none => none
    | some opts =>
      if opts = [] then none
      else
        let names := opts.filterMap (fun o => match o.name with
          | some n => if n ≠ "" then some n else none
          | none => none)
        let unique := pyDedupAppend names
        if "Done" ∈ unique then some unique else some (unique ++ ["Done"])

/-! Local Edit Propagator (`apply_local_project_item_updates`,
`_sync_remote_status`, `update_item_iteration`) and the webhook endpoint. -/

/-- An HTTPException: HTTP status code and detail message. -/
structure HErr where
  code : Nat
  detail : String
deriving DecidableEq, Repr

/-- One GraphQL mutation issued against the remote API:
`updateProjectV2ItemFieldValue` with a single-select option id, with an
iteration id, or `clearProjectV2ItemFieldValue`. -/
inductive RemoteCall
  | updateSingleSelect (projectId itemId fieldId optionId : String)
  | clearFieldValue (projectId itemId fieldId : String)
  | setIteration (projectId itemId fieldId iterationId : String)
deriving DecidableEq, Repr

/-- Whether a call is the "set iteration value" mutation. -/
def isSetIteration : RemoteCall → Bool
  | .setIteration _ _ _ _ => true
  | _ => false

/-- The remote API as an oracle: each issued mutation either succeeds or
raises (transport failures and GraphQL errors alike). -/
abbrev RemoteOracle := RemoteCall → Except HErr Unit

/-- The project columns the propagator reads: the remote node id (a
non-nullable string column, falsy when empty) and the optional declared
status-column list. -/
structure ProjectState where
  project_node_id : String
  status_columns : Option (List String) := none
deriving DecidableEq, Repr

/-- The project-item columns the propagator touches, plus the item node
id.  The editor id is kept as a string (a UUID in the source). -/
structure ItemState where
  item_node_id : String
  status : Option String := none
  start_date : Option Int := none
  end_date : Option Int := none
  due_date : Option Int := none
  iteration : Option String := none
  iteration_id : Option String := none
  iteration_start : Option Int := none
  iteration_end : Option Int := none
  epic_option_id : Option String := none
  epic_name : Option String := none
  last_local_edit_at : Option Int := none
  last_local_edit_by : Option String := none
deriving DecidableEq, Repr

/-- A local-edit changeset: `none` means the key is absent from the dict,
`some v` means the key is present with value `v` (possibly null). -/
structure Updates where
  status : Option (Option String) := none
  start_date : Option (Option Int) := none
  end_date : Option (Option Int) := none
  due_date : Option (Option Int) := none
  iteration_id : Option (Option String) := none
  iteration_title : Option (Option String) := none
  epic_option_id : Option (Option String) := none
  epic_name : Option (Option String) := none
deriving DecidableEq, Repr

/-- Python `if not updates:` — the dict is empty iff no key is present. -/
def Updates.isEmpty (u : Updates) : Bool :=
  u.status.isNone && u.start_date.isNone && u.end_date.isNone && u.due_date.isNone &&
    u.iteration_id.isNone && u.iteration_title.isNone && u.epic_option_id.isNone &&
    u.epic_name.isNone

/-- Models `ensure_timezone` (github.py): on the UTC-seconds timeline the
normalization is the identity and `None` stays `None`. -/
def ensure_timezone (v : Option Int) : Option Int := v

/-- Models `_sync_remote_status` (github.py): validate the node ids,
resolve the cached status field, fetch the token (`hasToken` models
`get_github_token` finding stored credentials), then issue a clear
mutation (null target) or an update mutation (matched option); a non-null
target with no matching option is a 422.  The first component lists the
mutations issued, the second the outcome (the oracle's failure is the
raised client error). -/
def _sync_remote_status (remote : RemoteOracle) (project : ProjectState)
    (fields : List FieldRow) (hasToken : Bool) (item : ItemState)
    (new_status : Option String) : List RemoteCall × Except HErr Unit :=
  if project.project_node_id = "" then
    ([], .error ⟨400, "Projeto sem identificador do GitHub"⟩)
  else if item.item_node_id = "" then
    ([], .error ⟨400, "Item sem identificador do Project"⟩)
  else
    match _resolve_status_field fields with
    | none => ([], .error ⟨422, "Campo Status não está configurado no projeto"⟩)
    | some status_field =>
      if ¬hasToken then ([], .error ⟨400, "Token do GitHub não configurado"⟩)
      else
        match new_status with
        | none =>
          let c := RemoteCall.clearFieldValue project.project_node_id item.item_node_id
            status_field.field_id
          ([c], remote c)
        | some s =>
          match _match_status_option status_field.options s with
          | none => ([], .error ⟨422, "Status indisponível no GitHub"⟩)
          | some option_id =>
            let c := RemoteCall.updateSingleSelect project.project_node_id item.item_node_id
              status_field.field_id option_id
            ([c], remote c)

/-- The status normalization of the propagator: null (or a non-string)
becomes `None`; a string is stripped and an empty result becomes `None`. -/
def normalizeStatusValue : Option String → Option String
  | none => none
  | some s => let t := pyStrip s; if t = "" then none else some t

/-- The status-column validation of the propagator: with a truthy declared
column list, a non-null normalized status must be among the non-empty
columns. -/
def statusRejected (new_status : Option String) (status_columns : Option (List String)) : Bool :=
  match new_status, status_columns with
  | some v, some cols =>
    if cols ≠ [] then decide (v ∉ cols.filter (fun c => decide (c ≠ ""))) else false
  | _, _ => false

/-- Intermediate accumulator of the propagator: the item being edited in
memory plus the `has_changes` flag. -/
structure ApplyAcc where
  item : ItemState
  has_changes : Bool
deriving DecidableEq, Repr

/-- The status block of `apply_local_project_item_updates`: validate
against the declared columns, and when the normalized value differs from
the normalized current status, mirror remotely before the in-memory
write. -/
def statusStep (remote : RemoteOracle) (project : ProjectState) (fields : List FieldRow)
    (hasToken : Bool) (item : ItemState) (updates : Updates) :
    List RemoteCall × Except HErr ApplyAcc :=
  match updates.status with
  | none => ([], .ok ⟨item, false⟩)
  | some raw =>
    let new_status := normalizeStatusValue raw
    if statusRejected new_status project.status_columns then
      ([], .error ⟨422, "Status inválido para este projeto"⟩)
    else
      let current_normalized := item.status.map pyStrip
      if new_status ≠ current_normalized then
        match _sync_remote_status remote project fields hasToken item new_status with
        | (calls, .error e) => (calls, .error e)
        | (calls, .ok _) => (calls, .ok ⟨{ item with status := new_status }, true⟩)
      else ([], .ok ⟨{ item with status := new_status }, true⟩)

/-- The start/end/due date blocks of the propagator. -/
def dateSteps (acc : ApplyAcc) (updates : Updates)
    (start_date end_date due_date : Option Int) : ApplyAcc :=
  let acc1 : ApplyAcc := match updates.start_date with
    | some _ => ⟨{ acc.item with start_date := start_date }, true⟩
    | none => acc
  let acc2 : ApplyAcc := match updates.end_date with
    | some _ => ⟨{ acc1.item with end_date := end_date }, true⟩
    | none => acc1
  match updates.due_date with
  | some _ => ⟨{ acc2.item with due_date := due_date }, true⟩
  | none => acc2

/-- The iteration block of the propagator: resolve title/start/end from
the cached iteration options and set, or clear, the local iteration
columns.  No remote call is made here. -/
def iterationStep (fields : List FieldRow) (acc : ApplyAcc) (updates : Updates) : ApplyAcc :=
  match updates.iteration_id with
  | none => acc
  | some rawId =>
    let iteration_field := _resolve_iteration_field_from_collection fields
    if truthyStr rawId then
      let iid := rawId.getD ""
      let r := resolve_iteration_option iteration_field (some iid)
      let newTitle := pyOrStr (pyOrStr ((updates.iteration_title).bind id) r.1) acc.item.iteration
      ⟨{ acc.item with
          iteration_id := some iid
          iteration := newTitle
          iteration_start := r.2.1
          iteration_end := r.2.2 }, true⟩
    else
      ⟨{ acc.item with
          iteration_id := none
          iteration := none
          iteration_start := none
          iteration_end := none }, true⟩

/-- The epic block of the propagator, run when either epic key is present:
a truthy option id sets id and resolved name (explicit override first,
then the cached options, then the stored name); a falsy one clears the id
and keeps only an explicitly supplied non-blank name. -/
def epicStep (fields : List FieldRow) (acc : ApplyAcc) (updates : Updates) : ApplyAcc :=
  match updates.epic_option_id, updates.epic_name with
  | none, none => acc
  | _, _ =>
    let epic_field := _resolve_epic_field_from_collection fields
    let epic_option_id := (updates.epic_option_id).bind id
    if truthyStr epic_option_id then
      let oid := epic_option_id.getD ""
      let resolved_name := pyOrStr (pyOrStr ((updates.epic_name).bind id)
        (resolve_epic_option epic_field (some oid))) acc.item.epic_name
      ⟨{ acc.item with epic_option_id := some oid, epic_name := resolved_name }, true⟩
    else
      let explicit_name := (updates.epic_name).bind id
      let cleaned : Option String :=
        match explicit_name with
        | some s => if pyStrip s ≠ "" then some (pyStrip s) else none
        | none => none
      ⟨{ acc.item with epic_option_id := none, epic_name := cleaned }, true⟩

/-- The end-before-start validation of the propagator (both dates present
and end < start). -/
def dateOrderInvalid (start_date end_date : Option Int) : Bool :=
  match start_date, end_date with
  | some s, some e => decide (e < s)
  | _, _ => false

/-- Models `apply_local_project_item_updates` (github.py): an empty
changeset returns the item untouched; otherwise validate the dates,
process the status block (the only block issuing remote mutations, via
`_sync_remote_status`), then the date, iteration and epic blocks, and
stamp the local-edit provenance when any block ran.  The first component
lists the remote mutations attempted in order; an error outcome models
the raised HTTPException, in which case nothing is flushed. -/
def apply_local_project_item_updates (remote : RemoteOracle) (project : ProjectState)
    (fields : List FieldRow) (hasToken : Bool) (item : ItemState) (updates : Updates)
    (editor_id : Option String) (now : Int) : List RemoteCall × Except HErr ItemState :=
  if updates.isEmpty then ([], .ok item)
  else
    let start_date := ensure_timezone ((updates.start_date).bind id)
    let end_date := ensure_timezone ((updates.end_date).bind id)
    let due_date := ensure_timezone ((updates.due_date).bind id)
    if dateOrderInvalid start_date end_date then
      ([], .error ⟨422, "end_date deve ser maior ou igual a start_date"⟩)
    else
      match statusStep remote project fields hasToken item updates with
      | (calls, .error e) => (calls, .error e)
      | (calls, .ok acc0) =>
        let acc1 := dateSteps acc0 updates start_date end_date due_date
        let acc2 := iterationStep fields acc1 updates
        let acc3 := epicStep fields acc2 updates
        if acc3.has_changes then
          (calls, .ok
            { acc3.item with last_local_edit_at := some now, last_local_edit_by := editor_id })
        else (calls, .ok acc3.item)

/-- Models `update_item_iteration` (github.py): resolve the cached
iteration field (404 when absent), fetch the token, then for a truthy id
issue the remote set-iteration mutation and, on success, set the local
columns from the cached options; for a falsy id issue the clear mutation
and clear the local columns.  A failing mutation propagates and nothing
is persisted. -/
def update_item_iteration (remote : RemoteOracle) (project : ProjectState)
    (fields : List FieldRow) (hasToken : Bool) (item : ItemState)
    (iteration_id : Option String) : List RemoteCall × Except HErr ItemState :=
  match _resolve_iteration_field_from_collection fields with
  | none => ([], .error ⟨404, "Campo Iteration não encontrado no projeto"⟩)
  | some iteration_field =>
    if ¬hasToken then ([], .error ⟨400, "Token do GitHub não configurado"⟩)
    else if truthyStr iteration_id then
      let iid := iteration_id.getD ""
      let c := RemoteCall.setIteration project.project_node_id item.item_node_id
        iteration_field.field_id iid
      match remote c with
      | .error e => ([c], .error e)
      | .ok _ =>
        let r := resolve_iteration_option (some iteration_field) (some iid)
        ([c], .ok
          { item with
            iteration := r.1
            iteration_id := some iid
            iteration_start := r.2.1
            iteration_end := r.2.2 })
    else
      let c := RemoteCall.clearFieldValue project.project_node_id item.item_node_id
        iteration_field.field_id
      match remote c with
      | .error e => ([c], .error e)
      | .ok _ =>
        ([c], .ok
          { item with
            iteration := none
            iteration_id := none
            iteration_start := none
            iteration_end := none })

/-- HMAC-SHA256 hex digest as an abstract function of the secret and the
raw body bytes; the embedding is parametric in it, since the claims only
depend on whether the provided value equals the recomputed digest. -/
abbrev HmacFun := String → List Nat → String

/-- Python `s.split("=", 1)[1]`: everything after the first "=". -/
def splitEqTail (s : String) : String :=
  String.mk ((s.toList.dropWhile (fun c => c != '=')).drop 1)

/-- Models Python `str.startswith`. -/
def pyStartsWith (s pre : String) : Bool := pre.toList.isPrefixOf s.toList

/-- Models `verify_webhook_signature` (webhook.py): a falsy or
mis-prefixed header is a 401; the digest is recomputed over the raw body
and compared (the source's constant-time comparison is functionally
string equality); a mismatch is a 401. -/
def verify_webhook_signature (hmacHex : HmacFun) (payload : List Nat)
    (signature : String) (secret : String) : Except HErr Bool :=
  if signature = "" ∨ ¬pyStartsWith signature "sha256=" then
    .error ⟨401, "Invalid signature format"⟩
  else
    let provided_hash := splitEqTail signature
    let expected_hash := hmacHex secret payload
    if provided_hash ≠ expected_hash then .error ⟨401, "Invalid signature"⟩
    else .ok true

/-- One inbound webhook request as the router reads it: the optional
headers, the raw body bytes, and whether the body parses as JSON. -/
structure WebhookRequest where
  event : Option String := none
  signature : Option String := none
  delivery : Option String := none
  body : List Nat := []
  jsonOk : Bool := true
deriving DecidableEq, Repr

/-- The keys of the `WEBHOOK_HANDLERS` table (webhook.py). -/
def WEBHOOK_HANDLERS : List String := ["project_v2_item", "issues", "pull_request"]

/-- Models `receive_github_webhook` (routers/github.py).  Returns the
event type whose handler was invoked (`none` when no handler ran)
together with the outcome: an `HErr` for the 400/401/500 rejections, or
the response-body status ("ignored", "processed", "error") returned with
HTTP 200 — handler failures (`handlerFails`) are caught and
acknowledged. -/
def receive_github_webhook (hmacHex : HmacFun) (webhook_secret : Option String)
    (handlerFails : String → Bool) (req : WebhookRequest) :
    Option String × Except HErr String :=
  if ¬truthyStr req.event then
    (none, .error ⟨400, "Missing X-GitHub-Event header"⟩)
  else if ¬truthyStr req.signature then
    (none, .error ⟨401, "Missing X-Hub-Signature-256 header"⟩)
  else if ¬truthyStr webhook_secret then
    (none, .error ⟨500, "Webhook secret not configured"⟩)
  else
    match verify_webhook_signature hmacHex req.body (req.signature.getD "")
        (webhook_secret.getD "") with
    | .error e => (none, .error e)
    | .ok _ =>
      if ¬req.jsonOk then (none, .error ⟨400, "Invalid JSON payload"⟩)
      else
        let event := req.event.getD ""
        if event ∈ WEBHOOK_HANDLERS then
          if handlerFails event then (some event, .ok "error")
          else (some event, .ok "processed")
        else (none, .ok "ignored")

/-- A request whose X-Hub-Signature-256 header is missing, falsy, not
prefixed with "sha256=", or whose hex part differs from the HMAC-SHA256
digest of the raw body under the given secret. -/
def badSignature (hmacHex : HmacFun) (secret : String) (req : WebhookRequest) : Prop :=
  match req.signature with
  | none => True
  | some s => s = "" ∨ ¬pyStartsWith s "sha256=" ∨ splitEqTail s ≠ hmacHex secret req.body


/-- Concrete status field row with a cached option list, for witnesses. -/
def statusFieldEx : FieldRow :=
  ⟨7, "FS", "Status", "SINGLE_SELECT",
    some (.plist [{ id := some "opt-d", name := some "Done" },
                  { id := some "opt-b", name := some "Backlog" }])⟩

/-- Concrete iteration field row with one cached iteration, for witnesses:
"Sprint 1" starts 2025-01-01 (1735689600) and lasts 14 days. -/
def iterFieldEx : FieldRow :=
  ⟨5, "FIT", "Iteration", "ITERATION",
    some (.pdict ⟨some [{ id := some "it-1", title := some "Sprint 1",
                          startDate := some (.valid 1735689600), duration := .vint 14 }]⟩)⟩

/-- Concrete project state for witnesses. -/
def projEx : ProjectState := ⟨"PROJ1", some ["Backlog", "Done"]⟩

/-- Concrete item state for witnesses. -/
def itemEx : ItemState := { item_node_id := "ITEM1", status := some "Backlog" }

end Boardlly

open Boardlly in
/-- Loop invariant: a node pass never makes `iteration_end` present while
`iteration_start` is absent (both are always written together, and the
end is computed from the start just written). -/
theorem parseFieldNodeStep_iter_inv (acc : List (String × PyAny) × ParsedFieldDetails)
    (node : FieldNode) (h : acc.2.iteration_start = none → acc.2.iteration_end = none) :
    (parseFieldNodeStep acc node).2.iteration_start = none →
    (parseFieldNodeStep acc node).2.iteration_end = none := by
  unfold parseFieldNodeStep
  repeat' split
  all_goals intro hs
  all_goals simp_all [apply_ite Prod.snd, apply_ite ParsedFieldDetails.iteration_start,
    apply_ite ParsedFieldDetails.iteration_end, compute_iteration_end]

open Boardlly in
/-- Loop invariant extended over the whole node list. -/
theorem parseFieldLoop_iter_inv (nodes : List FieldNode)
    (acc : List (String × PyAny) × ParsedFieldDetails)
    (h : acc.2.iteration_start = none → acc.2.iteration_end = none) :
    (parseFieldLoop acc nodes).2.iteration_start = none →
    (parseFieldLoop acc nodes).2.iteration_end = none := by
  induction nodes generalizing acc with
  | nil => exact h
  | cons node rest ih =>
    exact ih (parseFieldNodeStep acc node) (parseFieldNodeStep_iter_inv acc node h)

open Boardlly in

/-- The fallback chain on a detail record with only a due date present
yields start = due − 1 day and end = due. -/
theorem applyDateFallbacks_due_only (d : ParsedFieldDetails) (due : Int)
    (hdue : d.due_date = some due) (hstart : d.start_date = none)
    (hend : d.end_date = none) (hiterStart : d.iteration_start = none)
    (hiterEnd : d.iteration_end = none) :
    (applyDateFallbacks d).start_date = some (due - oneDay) ∧
    (applyDateFallbacks d).end_date = some due := by
  rcases d with ⟨it, iid, istart, iend, sd, ed, dd, eo, ev⟩
  simp only at hdue hstart hend hiterStart hiterEnd
  subst hdue hstart hend hiterStart hiterEnd
  simp [applyDateFallbacks]

/-- C2: for every item whose field-value list yields a due date but no start
date, no end date, and no iteration start, `parse_field_details` produces
start_date = due_date − 1 day and end_date = due_date. -/
theorem C2_due_date_fallback (nodes : List Boardlly.FieldNode) (due : Int)
    (hdue : (Boardlly.parseFieldLoop ([], {}) nodes).2.due_date = some due)
    (hstart : (Boardlly.parseFieldLoop ([], {}) nodes).2.start_date = none)
    (hend : (Boardlly.parseFieldLoop ([], {}) nodes).2.end_date = none)
    (hiter : (Boardlly.parseFieldLoop ([], {}) nodes).2.iteration_start = none) :
    (Boardlly.parse_field_details nodes).2.start_date = some (due - Boardlly.oneDay) ∧
    (Boardlly.parse_field_details nodes).2.end_date = some due := by
  have hiterEnd : (Boardlly.parseFieldLoop ([], {}) nodes).2.iteration_end = none :=
    parseFieldLoop_iter_inv nodes ([], {}) (fun _ => rfl) hiter
  exact applyDateFallbacks_due_only _ due hdue hstart hend hiter hiterEnd

/-- Witness for C2: a single due-date node (field named "Due Date") makes the
hypotheses hold, and the theorem yields start = due − 1 day, end = due. -/
theorem C2_due_date_fallback_witness :
    (Boardlly.parse_field_details
      [{ fieldName := some "Due Date", typename := some "ProjectV2ItemFieldDateValue",
         date := some (.valid 1700000000) }]).2.start_date =
        some (1700000000 - Boardlly.oneDay) ∧
    (Boardlly.parse_field_details
      [{ fieldName := some "Due Date", typename := some "ProjectV2ItemFieldDateValue",
         date := some (.valid 1700000000) }]).2.end_date = some 1700000000 :=
  C2_due_date_fallback
    [{ fieldName := some "Due Date", typename := some "ProjectV2ItemFieldDateValue",
       date := some (.valid 1700000000) }]
    1700000000 (by decide) (by decide) (by decide) (by decide)

/-- C8: for every iteration value, the computed iteration end equals the
iteration start plus the duration in days when the duration parses as an
integer (given directly as an integer or as a numeric string), and is null
when the start is absent or the duration is missing, empty, or
non-numeric. -/
theorem C8_compute_iteration_end_spec :
    (∀ d : Boardlly.PyVal, Boardlly.compute_iteration_end none d = none) ∧
    (∀ s : Int, Boardlly.compute_iteration_end (some s) .vnone = none) ∧
    (∀ s : Int, Boardlly.compute_iteration_end (some s) (.vstr "") = none) ∧
    (∀ (s : Int) (str : String), Boardlly.pyIntOfString str = none →
      Boardlly.compute_iteration_end (some s) (.vstr str) = none) ∧
    (∀ s n : Int, Boardlly.compute_iteration_end (some s) (.vint n) =
      some (s + n * Boardlly.oneDay)) ∧
    (∀ (s : Int) (str : String) (n : Int), Boardlly.pyIntOfString str = some n →
      Boardlly.compute_iteration_end (some s) (.vstr str) = some (s + n * Boardlly.oneDay)) := by
  refine ⟨fun d => rfl, fun s => rfl, fun s => rfl, ?_, ?_, ?_⟩
  · intro s str h
    simp only [Boardlly.compute_iteration_end]
    by_cases hempty : str = ""
    · simp [hempty]
    · simp only [Boardlly.pyToInt, h]
      simp [hempty]
  · intro s n
    simp [Boardlly.compute_iteration_end, Boardlly.pyToInt]
  · intro s str n h
    have hempty : str ≠ "" := by
      intro he
      rw [he] at h
      simp [Boardlly.pyIntOfString, Boardlly.pyStrip] at h
    simp only [Boardlly.compute_iteration_end]
    simp [hempty, Boardlly.pyToInt, h]

/-- Witness for C8: concrete evaluations discharging each hypothesis, for
the iteration duration examples of the spec (duration 14 on a concrete
start, plus a non-numeric duration). -/
theorem C8_compute_iteration_end_spec_witness :
    Boardlly.pyIntOfString "abc" = none ∧
    Boardlly.compute_iteration_end (some 1000) (.vstr "abc") = none ∧
    Boardlly.pyIntOfString "14" = some 14 ∧
    Boardlly.compute_iteration_end (some 1000) (.vstr "14") = some (1000 + 14 * Boardlly.oneDay) := by
  refine ⟨by decide, ?_, by decide, ?_⟩
  · exact C8_compute_iteration_end_spec.2.2.2.1 1000 "abc" (by decide)
  · exact C8_compute_iteration_end_spec.2.2.2.2.2 1000 "14" 14 (by decide)

open Boardlly in
/-- C9: for every cached field collection, epic-role resolution returns a
field only if that field is in the collection and passes the epic test
(single-select type AND a lowered name containing one of the fixed epic
aliases); it returns a field iff some field of the collection qualifies
(so a collection with no qualifying field yields `none`, not a failure);
a text or number field (whatever its name, e.g. "Epic") is never returned;
and the epic test is exactly the type-and-alias condition. -/
theorem C9_epic_field_resolution (fields : List FieldRow) :
    (∀ f, _resolve_epic_field_from_collection fields = some f →
      f ∈ fields ∧ isEpicField f = true) ∧
    ((_resolve_epic_field_from_collection fields).isSome ↔
      ∃ f ∈ fields, isEpicField f = true) ∧
    (∀ f, pyLower f.field_type = "text" ∨ pyLower f.field_type = "number" →
      _resolve_epic_field_from_collection fields ≠ some f) ∧
    (∀ f : FieldRow, isEpicField f = true ↔
      ((pyLower f.field_type = "single_select" ∨
        pyLower f.field_type = "projectv2singleselectfield") ∧
        ∃ al ∈ EPIC_FIELD_ALIASES, strInStr al (pyLower f.field_name) = true)) := by
  have part1 : ∀ f, _resolve_epic_field_from_collection fields = some f →
      f ∈ fields ∧ isEpicField f = true := by
    induction fields with
    | nil => intro f h; exact absurd h (by simp [_resolve_epic_field_from_collection])
    | cons g rest ih =>
      intro f h
      unfold _resolve_epic_field_from_collection at h
      by_cases hg : isEpicField g
      · rw [if_pos hg] at h
        cases h
        exact ⟨List.mem_cons_self _ _, hg⟩
      · rw [if_neg hg] at h
        rcases ih f h with ⟨hmem, hep⟩
        exact ⟨List.mem_cons_of_mem _ hmem, hep⟩
  refine ⟨part1, ?_, ?_, ?_⟩
  · constructor
    · intro hsome
      cases hr : _resolve_epic_field_from_collection fields with
      | none => rw [hr] at hsome; exact absurd hsome (by simp)
      | some f =>
        rcases part1 f hr with ⟨hmem, hep⟩
        exact ⟨f, hmem, hep⟩
    · intro hex
      induction fields with
      | nil => rcases hex with ⟨f, hf, _⟩; exact absurd hf (by simp)
      | cons g rest ih =>
        unfold _resolve_epic_field_from_collection
        by_cases hg : isEpicField g
        · simp [hg]
        · rw [if_neg hg]
          apply ih
          · intro f h
            rcases part1 f (by
              unfold _resolve_epic_field_from_collection
              rw [if_neg hg]; exact h) with ⟨hmem, hep⟩
            rcases List.mem_cons.mp hmem with heq | hmem'
            · subst heq; exact absurd hep (by simp [hg])
            · exact ⟨hmem', hep⟩
          · rcases hex with ⟨f, hf, hep⟩
            rcases List.mem_cons.mp hf with heq | hmem'
            · subst heq; exact absurd hep (by simp [hg])
            · exact ⟨f, hmem', hep⟩
  · intro f htype heq
    rcases part1 f heq with ⟨_, hep⟩
    have hss : pyLower f.field_type = "single_select" ∨
        pyLower f.field_type = "projectv2singleselectfield" := by
      have := (Bool.and_eq_true _ _).mp hep |>.1
      rcases (Bool.or_eq_true _ _).mp this with h | h
      · exact Or.inl (by simpa using h)
      · exact Or.inr (by simpa using h)
    rcases htype with h | h <;> rcases hss with h' | h' <;> rw [h] at h' <;> simp at h'
  · intro f
    unfold isEpicField
    rw [Bool.and_eq_true, Bool.or_eq_true, List.any_eq_true]
    constructor
    · rintro ⟨h1, al, hal, h2⟩
      refine ⟨?_, al, hal, h2⟩
      rcases h1 with h | h
      · exact Or.inl (by simpa using h)
      · exact Or.inr (by simpa using h)
    · rintro ⟨h1, al, hal, h2⟩
      refine ⟨?_, al, hal, h2⟩
      rcases h1 with h | h
      · exact Or.inl (by simpa using h)
      · exact Or.inr (by simpa using h)

open Boardlly in
/-- Witness for C9: on a collection holding one single-select field named
"Epic", resolution returns that field and the theorem's first conjunct
applies at it. -/
theorem C9_epic_field_resolution_witness :
    (⟨0, "F1", "Epic", "SINGLE_SELECT", none⟩ : FieldRow) ∈
      [(⟨0, "F1", "Epic", "SINGLE_SELECT", none⟩ : FieldRow)] ∧
    isEpicField ⟨0, "F1", "Epic", "SINGLE_SELECT", none⟩ = true :=
  (C9_epic_field_resolution [⟨0, "F1", "Epic", "SINGLE_SELECT", none⟩]).1
    ⟨0, "F1", "Epic", "SINGLE_SELECT", none⟩ (by decide)

open Boardlly in
/-- C7 counterexample: a status field whose option list already contains
"Done" in a non-final position yields a derived status-column list whose
last element is not "Done", refuting the claim that the list always ends
in "Done". -/
theorem C7_status_columns_counterexample :
    extract_status_columns
      [("Status", { options := some [{ name := some "Done" }, { name := some "Backlog" }] })] =
      some ["Done", "Backlog"] ∧
    ["Done", "Backlog"].getLast? ≠ some "Done" := by
  constructor
  · rfl
  · decide

open Boardlly in
/-- C7 (amended): every status-column list derived by
`extract_status_columns` is non-empty and contains "Done"; "Done" is
appended as the last element only when it is not already among the option
names. -/
theorem C7_status_columns_contain_done (fm : List (String × FieldData)) (l : List String)
    (h : extract_status_columns fm = some l) : "Done" ∈ l ∧ l ≠ [] := by
  unfold extract_status_columns at h
  cases hl : lookupDict fm "Status" with
  | none => rw [hl] at h; exact absurd h (by simp)
  | some sf =>
    rw [hl] at h
    dsimp only at h
    cases ho : sf.options with
    | none => rw [ho] at h; exact absurd h (by simp)
    | some opts =>
      rw [ho] at h
      dsimp only at h
      by_cases he : opts = []
      · rw [if_pos he] at h; exact absurd h (by simp)
      · rw [if_neg he] at h
        by_cases hd : "Done" ∈ pyDedupAppend (opts.filterMap (fun o => match o.name with
            | some n => if n ≠ "" then some n else none
            | none => none))
        · rw [if_pos hd] at h
          cases h
          exact ⟨hd, by intro hnil; rw [hnil] at hd; simp at hd⟩
        · rw [if_neg hd] at h
          cases h
          refine ⟨List.mem_append_right _ (by simp), by simp⟩

open Boardlly in
/-- Witness for C7 (amended): the theorem applied at a concrete catalog. -/
theorem C7_status_columns_contain_done_witness :
    "Done" ∈ ["Backlog", "Done"] ∧ ["Backlog", "Done"] ≠ [] :=
  C7_status_columns_contain_done
    [("Status", { options := some [{ name := some "Backlog" }] })]
    ["Backlog", "Done"] (by decide)

open Boardlly in
/-- In-place update keeps every row's surrogate key and field id. -/
theorem updateRow_ids (fid name ftype : String) (opts : Option OptionsPayload) :
    ∀ rows : List FieldRow,
      (updateRow rows fid name ftype opts).map FieldRow.field_id =
        rows.map FieldRow.field_id := by
  intro rows
  induction rows with
  | nil => rfl
  | cons r rest ih =>
    unfold updateRow
    by_cases h : r.field_id = fid
    · simp [h]
    · simp [h, ih]

open Boardlly in
/-- Every row survives an in-place update with its key and field id. -/
theorem updateRow_preserves (fid name ftype : String) (opts : Option OptionsPayload) :
    ∀ rows : List FieldRow, ∀ r ∈ rows,
      ∃ r' ∈ updateRow rows fid name ftype opts,
        r'.key = r.key ∧ r'.field_id = r.field_id := by
  intro rows
  induction rows with
  | nil => intro r h; cases h
  | cons g rest ih =>
    intro r h
    unfold updateRow
    by_cases hg : g.field_id = fid
    · rw [if_pos hg]
      rcases List.mem_cons.mp h with heq | hmem
      · subst heq
        exact ⟨_, List.mem_cons_self _ _, rfl, rfl⟩
      · exact ⟨r, List.mem_cons_of_mem _ hmem, rfl, rfl⟩
    · rw [if_neg hg]
      rcases List.mem_cons.mp h with heq | hmem
      · subst heq
        exact ⟨r, List.mem_cons_self _ _, rfl, rfl⟩
      · rcases ih r hmem with ⟨r', hr', hk, hi⟩
        exact ⟨r', List.mem_cons_of_mem _ hr', hk, hi⟩

open Boardlly in
/-- Under per-project uniqueness of field ids, a row of the updated list is
either an untouched original row with a different id, or carries the new
name, type and options together with the target id. -/
theorem updateRow_mem_char (fid name ftype : String) (opts : Option OptionsPayload) :
    ∀ rows : List FieldRow, (rows.map FieldRow.field_id).Nodup →
      ∀ r' ∈ updateRow rows fid name ftype opts,
        (r' ∈ rows ∧ r'.field_id ≠ fid) ∨
        (r'.field_id = fid ∧ r'.field_name = name ∧ r'.field_type = ftype ∧
          r'.options = opts) := by
  intro rows
  induction rows with
  | nil => intro _ r' h; cases h
  | cons g rest ih =>
    intro hnd r' h
    rw [List.map_cons, List.nodup_cons] at hnd
    unfold updateRow at h
    by_cases hg : g.field_id = fid
    · rw [if_pos hg] at h
      rcases List.mem_cons.mp h with heq | hmem
      · subst heq
        exact Or.inr ⟨hg, rfl, rfl, rfl⟩
      · refine Or.inl ⟨List.mem_cons_of_mem _ hmem, ?_⟩
        intro hcontra
        exact hnd.1 (by rw [hg, ← hcontra]; exact List.mem_map_of_mem _ hmem)
    · rw [if_neg hg] at h
      rcases List.mem_cons.mp h with heq | hmem
      · subst heq
        exact Or.inl ⟨List.mem_cons_self _ _, hg⟩
      · rcases ih hnd.2 r' hmem with ⟨hmem', hne⟩ | hright
        · exact Or.inl ⟨List.mem_cons_of_mem _ hmem', hne⟩
        · exact Or.inr hright

open Boardlly in
/-- A row matching an entry of the tail matches the extended catalog. -/
theorem matchesEntry_cons (p : String × Option FieldData)
    (fm : List (String × Option FieldData)) (r : FieldRow)
    (h : matchesEntry fm r) : matchesEntry (p :: fm) r := by
  rcases h with ⟨name, data, hmem, hrest⟩
  exact ⟨name, data, List.mem_cons_of_mem _ hmem, hrest⟩

open Boardlly in
/-- A row agreeing with the head entry of the catalog matches it. -/
theorem matchesEntry_head (name : String) (data : FieldData)
    (fm : List (String × Option FieldData)) (r : FieldRow)
    (h1 : data.id = some r.field_id) (h2 : r.field_id ≠ "") (h3 : r.field_name = name)
    (h4 : r.field_type = fieldTypeOf data) (h5 : r.options = optionsOf data) :
    matchesEntry ((name, some data) :: fm) r := by
  unfold matchesEntry
  exact ⟨name, data, List.mem_cons_self _ _, h1, h2, h3, h4, h5⟩

open Boardlly in
/-- Valid ids of a catalog headed by a non-dict entry. -/
theorem validIds_cons_none (name : String) (fm : List (String × Option FieldData)) :
    validIds ((name, none) :: fm) = validIds fm := by
  simp [validIds, List.filterMap_cons]

open Boardlly in
/-- Valid ids of a catalog headed by an entry without id. -/
theorem validIds_cons_noid (name : String) (data : FieldData)
    (fm : List (String × Option FieldData)) (h : data.id = none) :
    validIds ((name, some data) :: fm) = validIds fm := by
  simp [validIds, List.filterMap_cons, h]

open Boardlly in
/-- Valid ids of a catalog headed by an entry with an empty (falsy) id. -/
theorem validIds_cons_empty (name : String) (data : FieldData)
    (fm : List (String × Option FieldData)) (h : data.id = some "") :
    validIds ((name, some data) :: fm) = validIds fm := by
  simp [validIds, List.filterMap_cons, h]

open Boardlly in
/-- Valid ids of a catalog headed by an entry with a truthy id. -/
theorem validIds_cons_valid (name : String) (data : FieldData) (gid : String)
    (fm : List (String × Option FieldData)) (h : data.id = some gid) (hg : gid ≠ "") :
    validIds ((name, some data) :: fm) = gid :: validIds fm := by
  simp [validIds, List.filterMap_cons, h, hg]

open Boardlly in
/-- The seen set accumulated by the sync loop is exactly the valid catalog
ids, in order, appended to the incoming accumulator. -/
theorem sync_loop_seen (fm : List (String × Option FieldData)) :
    ∀ (rows : List FieldRow) (k : Nat) (seen : List String),
      (sync_fields_loop rows k seen fm).2 = seen ++ validIds fm := by
  induction fm with
  | nil => intro rows k seen; simp [sync_fields_loop, validIds]
  | cons p rest ih =>
    intro rows k seen
    rcases p with ⟨name, dataOpt⟩
    cases dataOpt with
    | none => simp [sync_fields_loop, validIds, List.filterMap_cons, ih]
    | some data =>
      cases hid : data.id with
      | none => simp [sync_fields_loop, validIds, List.filterMap_cons, hid, ih]
      | some gid =>
        by_cases hg : gid = ""
        · simp [sync_fields_loop, validIds, List.filterMap_cons, hid, hg, ih]
        · by_cases hany : rows.any (fun r => r.field_id == gid)
          · simp [sync_fields_loop, validIds, List.filterMap_cons, hid, hg, hany, ih]
          · simp [sync_fields_loop, validIds, List.filterMap_cons, hid, hg, hany, ih]

open Boardlly in
/-- Every incoming row survives the whole sync loop with its surrogate key
and field id (updates are in place, the loop never removes rows). -/
theorem sync_loop_preserves (fm : List (String × Option FieldData)) :
    ∀ (rows : List FieldRow) (k : Nat) (seen : List String), ∀ r ∈ rows,
      ∃ r' ∈ (sync_fields_loop rows k seen fm).1,
        r'.key = r.key ∧ r'.field_id = r.field_id := by
  induction fm with
  | nil => intro rows k seen r h; exact ⟨r, h, rfl, rfl⟩
  | cons p rest ih =>
    intro rows k seen r h
    rcases p with ⟨name, dataOpt⟩
    cases dataOpt with
    | none => simpa [sync_fields_loop] using ih rows k seen r h
    | some data =>
      cases hid : data.id with
      | none => simpa [sync_fields_loop, hid] using ih rows k seen r h
      | some gid =>
        by_cases hg : gid = ""
        · simpa [sync_fields_loop, hid, hg] using ih rows k seen r h
        · by_cases hany : rows.any (fun r => r.field_id == gid)
          · rcases updateRow_preserves gid name (fieldTypeOf data) (optionsOf data) rows r h with
              ⟨r₁, h₁, hk₁, hi₁⟩
            rcases ih (updateRow rows gid name (fieldTypeOf data) (optionsOf data)) k
                (seen ++ [gid]) r₁ h₁ with ⟨r', h', hk', hi'⟩
            refine ⟨r', ?_, hk'.trans hk₁, hi'.trans hi₁⟩
            simpa [sync_fields_loop, hid, hg, hany] using h'
          · rcases ih (rows ++ [⟨k, gid, name, fieldTypeOf data, optionsOf data⟩]) (k + 1)
                (seen ++ [gid]) r (List.mem_append_left _ h) with ⟨r', h', hk', hi'⟩
            refine ⟨r', ?_, hk', hi'⟩
            simpa [sync_fields_loop, hid, hg, hany] using h'

open Boardlly in
/-- Every valid catalog id ends up on some row after the sync loop. -/
theorem sync_loop_covers (fm : List (String × Option FieldData)) :
    ∀ (rows : List FieldRow) (k : Nat) (seen : List String), ∀ fid ∈ validIds fm,
      ∃ r' ∈ (sync_fields_loop rows k seen fm).1, r'.field_id = fid := by
  induction fm with
  | nil => intro rows k seen fid h; simp [validIds] at h
  | cons p rest ih =>
    intro rows k seen fid h
    rcases p with ⟨name, dataOpt⟩
    cases dataOpt with
    | none =>
      rw [validIds_cons_none] at h
      simpa [sync_fields_loop] using ih rows k seen fid h
    | some data =>
      cases hid : data.id with
      | none =>
        rw [validIds_cons_noid _ _ _ hid] at h
        simpa [sync_fields_loop, hid] using ih rows k seen fid h
      | some gid =>
        by_cases hg : gid = ""
        · rw [validIds_cons_empty _ _ _ (by rw [hid, hg])] at h
          simpa [sync_fields_loop, hid, hg] using ih rows k seen fid h
        · have h' : fid = gid ∨ fid ∈ validIds rest := by
            rw [validIds_cons_valid _ _ _ _ hid hg] at h
            exact List.mem_cons.mp h
          by_cases hany : rows.any (fun r => r.field_id == gid)
          · rcases h' with heq | hmem
            · subst heq
              rcases List.any_eq_true.mp hany with ⟨row, hrow, hbeq⟩
              have hrowid : row.field_id = fid := by simpa using hbeq
              rcases updateRow_preserves fid name (fieldTypeOf data) (optionsOf data) rows
                  row hrow with ⟨r₁, h₁, _, hi₁⟩
              rcases sync_loop_preserves rest
                  (updateRow rows fid name (fieldTypeOf data) (optionsOf data)) k
                  (seen ++ [fid]) r₁ h₁ with ⟨r', hmem', _, hi'⟩
              refine ⟨r', ?_, by rw [hi', hi₁, hrowid]⟩
              simpa [sync_fields_loop, hid, hg, hany] using hmem'
            · rcases ih (updateRow rows gid name (fieldTypeOf data) (optionsOf data)) k
                  (seen ++ [gid]) fid hmem with ⟨r', hmem', hi'⟩
              refine ⟨r', ?_, hi'⟩
              simpa [sync_fields_loop, hid, hg, hany] using hmem'
          · rcases h' with heq | hmem
            · subst heq
              have hnew : (⟨k, fid, name, fieldTypeOf data, optionsOf data⟩ : FieldRow) ∈
                  rows ++ [⟨k, fid, name, fieldTypeOf data, optionsOf data⟩] :=
                List.mem_append_right _ (List.mem_singleton.mpr rfl)
              rcases sync_loop_preserves rest
                  (rows ++ [⟨k, fid, name, fieldTypeOf data, optionsOf data⟩]) (k + 1)
                  (seen ++ [fid]) _ hnew with ⟨r', hmem', _, hi'⟩
              refine ⟨r', ?_, by rw [hi']⟩
              simpa [sync_fields_loop, hid, hg, hany] using hmem'
            · rcases ih (rows ++ [⟨k, gid, name, fieldTypeOf data, optionsOf data⟩]) (k + 1)
                  (seen ++ [gid]) fid hmem with ⟨r', hmem', hi'⟩
              refine ⟨r', ?_, hi'⟩
              simpa [sync_fields_loop, hid, hg, hany] using hmem'

open Boardlly in
/-- Under uniqueness of row ids and of valid catalog ids, every row coming
out of the sync loop is either an untouched original whose id the catalog
does not mention, or agrees with a catalog entry. -/
theorem sync_loop_origin (fm : List (String × Option FieldData)) :
    ∀ (rows : List FieldRow) (k : Nat) (seen : List String),
      (rows.map FieldRow.field_id).Nodup → (validIds fm).Nodup →
      ∀ r' ∈ (sync_fields_loop rows k seen fm).1,
        (r' ∈ rows ∧ r'.field_id ∉ validIds fm) ∨ matchesEntry fm r' := by
  induction fm with
  | nil =>
    intro rows k seen _ _ r' h
    exact Or.inl ⟨h, by simp [validIds]⟩
  | cons p rest ih =>
    intro rows k seen h1 h2 r' h
    rcases p with ⟨name, dataOpt⟩
    cases dataOpt with
    | none =>
      rw [validIds_cons_none] at h2 ⊢
      have h' : r' ∈ (sync_fields_loop rows k seen rest).1 := by
        simpa [sync_fields_loop] using h
      rcases ih rows k seen h1 h2 r' h' with ⟨hmem, hnotin⟩ | hmatch
      · exact Or.inl ⟨hmem, hnotin⟩
      · exact Or.inr (matchesEntry_cons _ _ _ hmatch)
    | some data =>
      cases hid : data.id with
      | none =>
        rw [validIds_cons_noid _ _ _ hid] at h2 ⊢
        have h' : r' ∈ (sync_fields_loop rows k seen rest).1 := by
          simpa [sync_fields_loop, hid] using h
        rcases ih rows k seen h1 h2 r' h' with ⟨hmem, hnotin⟩ | hmatch
        · exact Or.inl ⟨hmem, hnotin⟩
        · exact Or.inr (matchesEntry_cons _ _ _ hmatch)
      | some gid =>
        by_cases hg : gid = ""
        · rw [validIds_cons_empty _ _ _ (by rw [hid, hg])] at h2 ⊢
          have h' : r' ∈ (sync_fields_loop rows k seen rest).1 := by
            simpa [sync_fields_loop, hid, hg] using h
          rcases ih rows k seen h1 h2 r' h' with ⟨hmem, hnotin⟩ | hmatch
          · exact Or.inl ⟨hmem, hnotin⟩
          · exact Or.inr (matchesEntry_cons _ _ _ hmatch)
        · rw [validIds_cons_valid _ _ _ _ hid hg] at h2 ⊢
          rw [List.nodup_cons] at h2
          by_cases hany : rows.any (fun r => r.field_id == gid)
          · have h' : r' ∈ (sync_fields_loop
                (updateRow rows gid name (fieldTypeOf data) (optionsOf data)) k
                (seen ++ [gid]) rest).1 := by
              simpa [sync_fields_loop, hid, hg, hany] using h
            have h1' : ((updateRow rows gid name (fieldTypeOf data)
                (optionsOf data)).map FieldRow.field_id).Nodup := by
              rw [updateRow_ids]; exact h1
            rcases ih _ k (seen ++ [gid]) h1' h2.2 r' h' with ⟨hmem₁, hnotin⟩ | hmatch
            · rcases updateRow_mem_char gid name (fieldTypeOf data) (optionsOf data) rows
                  h1 r' hmem₁ with ⟨hmemr, hne⟩ | ⟨hidr, hnamer, htyper, hoptsr⟩
              · refine Or.inl ⟨hmemr, ?_⟩
                simp only [List.mem_cons]
                rintro (heq | hmem2)
                · exact hne heq
                · exact hnotin hmem2
              · refine Or.inr (matchesEntry_head name data rest r' ?_ ?_ hnamer htyper hoptsr)
                · rw [hid, hidr]
                · rw [hidr]; exact hg
            · exact Or.inr (matchesEntry_cons _ _ _ hmatch)
          · have hgnotin : gid ∉ rows.map FieldRow.field_id := by
              intro hcontra
              rcases List.mem_map.mp hcontra with ⟨row, hrow, hrowid⟩
              have : rows.any (fun r => r.field_id == gid) = true :=
                List.any_eq_true.mpr ⟨row, hrow, by simp [hrowid]⟩
              exact hany this
            have h' : r' ∈ (sync_fields_loop
                (rows ++ [⟨k, gid, name, fieldTypeOf data, optionsOf data⟩]) (k + 1)
                (seen ++ [gid]) rest).1 := by
              simpa [sync_fields_loop, hid, hg, hany] using h
            have h1' : ((rows ++
                [(⟨k, gid, name, fieldTypeOf data, optionsOf data⟩ : FieldRow)]).map
                FieldRow.field_id).Nodup := by
              rw [List.map_append]
              simp only [List.map_cons, List.map_nil]
              rw [List.nodup_append]
              refine ⟨h1, List.nodup_singleton _, ?_⟩
              intro a ha hb
              rw [List.mem_singleton] at hb
              subst hb
              exact hgnotin ha
            rcases ih _ (k + 1) (seen ++ [gid]) h1' h2.2 r' h' with ⟨hmem₁, hnotin⟩ | hmatch
            · rcases List.mem_append.mp hmem₁ with hmemr | hnew
              · refine Or.inl ⟨hmemr, ?_⟩
                simp only [List.mem_cons]
                rintro (heq | hmem2)
                · exact hgnotin (heq ▸ List.mem_map_of_mem _ hmemr)
                · exact hnotin hmem2
              · rw [List.mem_singleton] at hnew
                subst hnew
                exact Or.inr (matchesEntry_head name data rest _ (by rw [hid]) hg rfl rfl rfl)
            · exact Or.inr (matchesEntry_cons _ _ _ hmatch)

open Boardlly in
/-- C5: after `sync_project_fields` runs with a newly fetched field catalog
(and field ids unique on both sides, as the per-project unique constraint
and GitHub node ids guarantee), the local rows are exactly the fields of
the catalog: every surviving row's id is a catalog id, every catalog id is
on some row, rows whose id stays are updated in place (same surrogate
key), and every surviving row carries the name, type and options of its
catalog entry; rows whose id is absent from the fetch are deleted. -/
theorem C5_sync_project_fields_mirror (rows : List FieldRow) (startKey : Nat)
    (fm : List (String × Option FieldData))
    (hrows : (rows.map FieldRow.field_id).Nodup)
    (hfm : (validIds fm).Nodup) :
    (∀ r ∈ sync_project_fields rows startKey fm, r.field_id ∈ validIds fm) ∧
    (∀ fid ∈ validIds fm, ∃ r ∈ sync_project_fields rows startKey fm, r.field_id = fid) ∧
    (∀ r ∈ rows, r.field_id ∈ validIds fm →
      ∃ r' ∈ sync_project_fields rows startKey fm,
        r'.key = r.key ∧ r'.field_id = r.field_id) ∧
    (∀ r ∈ sync_project_fields rows startKey fm, matchesEntry fm r) := by
  have hseen : (sync_fields_loop rows startKey [] fm).2 = validIds fm := by
    simpa using sync_loop_seen fm rows startKey []
  have hmem_result : ∀ r, r ∈ sync_project_fields rows startKey fm ↔
      r ∈ (sync_fields_loop rows startKey [] fm).1 ∧ r.field_id ∈ validIds fm := by
    intro r
    unfold sync_project_fields
    rw [List.mem_filter]
    constructor
    · rintro ⟨hm, hd⟩
      exact ⟨hm, by rw [← hseen]; exact of_decide_eq_true hd⟩
    · rintro ⟨hm, hd⟩
      exact ⟨hm, decide_eq_true (by rw [hseen]; exact hd)⟩
  refine ⟨?_, ?_, ?_, ?_⟩
  · intro r hr
    exact ((hmem_result r).mp hr).2
  · intro fid hfid
    rcases sync_loop_covers fm rows startKey [] fid hfid with ⟨r', hr', hi⟩
    exact ⟨r', (hmem_result r').mpr ⟨hr', by rw [hi]; exact hfid⟩, hi⟩
  · intro r hr hin
    rcases sync_loop_preserves fm rows startKey [] r hr with ⟨r', hr', hk, hi⟩
    exact ⟨r', (hmem_result r').mpr ⟨hr', by rw [hi]; exact hin⟩, hk, hi⟩
  · intro r hr
    rcases (hmem_result r).mp hr with ⟨hm, hd⟩
    rcases sync_loop_origin fm rows startKey [] hrows hfm r hm with ⟨_, hnot⟩ | hmatch
    · exact absurd hd hnot
    · exact hmatch

open Boardlly in
/-- Witness for C5: the theorem applied to the concrete rows and catalog
(one field updated in place, one inserted, one deleted). -/
theorem C5_sync_project_fields_mirror_witness :
    ((sampleRows.map FieldRow.field_id).Nodup ∧ (validIds sampleCatalog).Nodup) ∧
    ((∀ r ∈ sync_project_fields sampleRows 3 sampleCatalog,
        r.field_id ∈ validIds sampleCatalog) ∧
     (∀ fid ∈ validIds sampleCatalog,
        ∃ r ∈ sync_project_fields sampleRows 3 sampleCatalog, r.field_id = fid) ∧
     (∀ r ∈ sampleRows, r.field_id ∈ validIds sampleCatalog →
        ∃ r' ∈ sync_project_fields sampleRows 3 sampleCatalog,
          r'.key = r.key ∧ r'.field_id = r.field_id) ∧
     (∀ r ∈ sync_project_fields sampleRows 3 sampleCatalog, matchesEntry sampleCatalog r)) :=
  ⟨⟨by decide, by decide⟩,
    C5_sync_project_fields_mirror sampleRows 3 sampleCatalog (by decide) (by decide)⟩

open Boardlly in
/-- A changeset dict is empty iff every key is absent. -/
theorem updates_isEmpty_spec (u : Updates) :
    u.isEmpty = true ↔
      (u.status = none ∧ u.start_date = none ∧ u.end_date = none ∧ u.due_date = none ∧
        u.iteration_id = none ∧ u.iteration_title = none ∧ u.epic_option_id = none ∧
        u.epic_name = none) := by
  unfold Updates.isEmpty
  simp [Option.isNone_iff_eq_none, Bool.and_eq_true, and_assoc]

open Boardlly in
/-- C4: for every status edit whose new non-empty (stripped) value is not a
member of the project's declared (non-empty) status-column list,
`apply_local_project_item_updates` rejects the edit with a 422 validation
error and issues no remote call; the error return models the raised
HTTPException, so no stored state changes. -/
theorem C4_invalid_status_rejected (remote : RemoteOracle) (project : ProjectState)
    (fields : List FieldRow) (hasToken : Bool) (item : ItemState) (updates : Updates)
    (editor : Option String) (now : Int) (raw : String) (cols : List String)
    (h_status : updates.status = some (some raw))
    (h_t : pyStrip raw ≠ "")
    (h_cols : project.status_columns = some cols) (h_ne : cols ≠ [])
    (h_nin : pyStrip raw ∉ cols) :
    (apply_local_project_item_updates remote project fields hasToken item updates editor now).1 =
      [] ∧
    ∃ d, (apply_local_project_item_updates remote project fields hasToken item updates
      editor now).2 = Except.error ⟨422, d⟩ := by
  have hne : updates.isEmpty = false := by
    rcases h : updates.isEmpty with _ | _
    · rfl
    · rcases (updates_isEmpty_spec updates).mp h with ⟨hs, _⟩
      rw [h_status] at hs
      cases hs
  have hstep : statusStep remote project fields hasToken item updates =
      ([], .error ⟨422, "Status inválido para este projeto"⟩) := by
    unfold statusStep
    rw [h_status]
    have hnorm : normalizeStatusValue (some raw) = some (pyStrip raw) := by
      unfold normalizeStatusValue
      simp [h_t]
    have hrej : statusRejected (normalizeStatusValue (some raw)) project.status_columns =
        true := by
      rw [hnorm, h_cols]
      unfold statusRejected
      dsimp only
      rw [if_pos h_ne]
      refine decide_eq_true ?_
      intro hmem
      exact h_nin (List.mem_of_mem_filter hmem)
    simp only [hrej, if_true]
  unfold apply_local_project_item_updates
  rw [hne]
  simp only [Bool.false_eq_true, if_false]
  by_cases hd : dateOrderInvalid (ensure_timezone ((updates.start_date).bind id))
      (ensure_timezone ((updates.end_date).bind id)) = true
  · rw [if_pos hd]
    exact ⟨rfl, "end_date deve ser maior ou igual a start_date", rfl⟩
  · rw [if_neg hd]
    rw [hstep]
    exact ⟨rfl, "Status inválido para este projeto", rfl⟩

open Boardlly in
/-- Witness for C4: a concrete status edit to "Doing" on a project whose
declared columns are Backlog/Done is rejected with 422 and no remote
call. -/
theorem C4_invalid_status_rejected_witness :
    ((({ status := some (some "Doing") } : Updates).status = some (some "Doing")) ∧
      pyStrip "Doing" ≠ "" ∧
      (⟨"P1", some ["Backlog", "Done"]⟩ : ProjectState).status_columns =
        some ["Backlog", "Done"] ∧
      ["Backlog", "Done"] ≠ [] ∧ pyStrip "Doing" ∉ ["Backlog", "Done"]) ∧
    ((apply_local_project_item_updates (fun _ => .ok ()) ⟨"P1", some ["Backlog", "Done"]⟩ []
        true { item_node_id := "I1" } { status := some (some "Doing") } (some "ed") 7).1 = [] ∧
      ∃ d, (apply_local_project_item_updates (fun _ => .ok ()) ⟨"P1", some ["Backlog", "Done"]⟩
        [] true { item_node_id := "I1" } { status := some (some "Doing") } (some "ed") 7).2 =
          Except.error ⟨422, d⟩) :=
  ⟨⟨rfl, by decide, rfl, by decide, by decide⟩,
    C4_invalid_status_rejected (fun _ => .ok ()) ⟨"P1", some ["Backlog", "Done"]⟩ [] true
      { item_node_id := "I1" } { status := some (some "Doing") } (some "ed") 7 "Doing"
      ["Backlog", "Done"] rfl (by decide) rfl (by decide) (by decide)⟩

open Boardlly in
/-- The date blocks never reset the change flag. -/
theorem dateSteps_pres (acc : ApplyAcc) (u : Updates) (s e d : Option Int)
    (h : acc.has_changes = true) : (dateSteps acc u s e d).has_changes = true := by
  unfold dateSteps
  repeat' split
  all_goals simp_all

open Boardlly in
/-- The iteration block never resets the change flag. -/
theorem iterationStep_pres (fields : List FieldRow) (acc : ApplyAcc) (u : Updates)
    (h : acc.has_changes = true) : (iterationStep fields acc u).has_changes = true := by
  unfold iterationStep
  repeat' split
  all_goals simp_all

open Boardlly in
/-- The epic block never resets the change flag. -/
theorem epicStep_pres (fields : List FieldRow) (acc : ApplyAcc) (u : Updates)
    (h : acc.has_changes = true) : (epicStep fields acc u).has_changes = true := by
  unfold epicStep
  repeat' split
  all_goals simp_all [apply_ite ApplyAcc.has_changes]

open Boardlly in
/-- A present date key sets the change flag. -/
theorem dateSteps_sets (acc : ApplyAcc) (u : Updates) (s e d : Option Int)
    (h : u.start_date ≠ none ∨ u.end_date ≠ none ∨ u.due_date ≠ none) :
    (dateSteps acc u s e d).has_changes = true := by
  unfold dateSteps
  rcases h with h | h | h
  all_goals repeat' split
  all_goals simp_all

open Boardlly in
/-- A present iteration-id key sets the change flag. -/
theorem iterationStep_sets (fields : List FieldRow) (acc : ApplyAcc) (u : Updates)
    (h : u.iteration_id ≠ none) : (iterationStep fields acc u).has_changes = true := by
  unfold iterationStep
  repeat' split
  all_goals simp_all

open Boardlly in
/-- A present epic key sets the change flag. -/
theorem epicStep_sets (fields : List FieldRow) (acc : ApplyAcc) (u : Updates)
    (h : u.epic_option_id ≠ none ∨ u.epic_name ≠ none) :
    (epicStep fields acc u).has_changes = true := by
  unfold epicStep
  repeat' split
  all_goals simp_all [apply_ite ApplyAcc.has_changes]

open Boardlly in
/-- A present status key sets the change flag on the successful path. -/
theorem statusStep_sets (remote : RemoteOracle) (project : ProjectState)
    (fields : List FieldRow) (hasToken : Bool) (item : ItemState) (u : Updates)
    (raw : Option String) (calls : List RemoteCall) (acc : ApplyAcc)
    (hs : u.status = some raw)
    (h : statusStep remote project fields hasToken item u = (calls, .ok acc)) :
    acc.has_changes = true := by
  unfold statusStep at h
  rw [hs] at h
  dsimp only at h
  by_cases hrej : statusRejected (normalizeStatusValue raw) project.status_columns = true
  · rw [if_pos hrej] at h
    cases h
  · rw [if_neg hrej] at h
    by_cases hdiff : normalizeStatusValue raw ≠ item.status.map pyStrip
    · rw [if_pos hdiff] at h
      cases hsync : _sync_remote_status remote project fields hasToken item
          (normalizeStatusValue raw) with
      | mk cs r =>
        rw [hsync] at h
        cases r with
        | error e => cases h
        | ok v => cases h; rfl
    · rw [if_neg hdiff] at h
      cases h
      rfl

open Boardlly in
/-- C10 counterexample: the changeset containing only the iteration_title
key is non-empty and is accepted (the call succeeds and returns the item),
yet it stamps no local-edit provenance and changes nothing — refuting the
claim that every non-empty accepted changeset stamps
last_local_edit_at/by. -/
theorem C10_stamping_counterexample :
    apply_local_project_item_updates (fun _ => .ok ()) ⟨"P1", none⟩ [] true
        { item_node_id := "I1" } { iteration_title := some (some "Sprint 9") }
        (some "ed") 99 =
      ([], Except.ok { item_node_id := "I1" }) ∧
    ({ item_node_id := "I1" } : ItemState).last_local_edit_at = none ∧
    ({ iteration_title := some (some "Sprint 9") } : Updates).isEmpty = false := by
  refine ⟨rfl, rfl, rfl⟩

open Boardlly in
/-- C10 (amended): an empty changeset returns the item with every field
unchanged, performs no remote call and stamps nothing; and every accepted
changeset carrying at least one effective key (status, a date, the
iteration id, or an epic key — iteration_title alone is ignored) stamps
last_local_edit_at with the edit time and last_local_edit_by with the
editor. -/
theorem C10_empty_changeset_frame :
    (∀ (remote : RemoteOracle) (project : ProjectState) (fields : List FieldRow)
        (hasToken : Bool) (item : ItemState) (editor : Option String) (now : Int),
      apply_local_project_item_updates remote project fields hasToken item {} editor now =
        ([], Except.ok item)) ∧
    (∀ (remote : RemoteOracle) (project : ProjectState) (fields : List FieldRow)
        (hasToken : Bool) (item : ItemState) (updates : Updates) (editor : Option String)
        (now : Int) (item' : ItemState),
      (updates.status ≠ none ∨ updates.start_date ≠ none ∨ updates.end_date ≠ none ∨
        updates.due_date ≠ none ∨ updates.iteration_id ≠ none ∨
        updates.epic_option_id ≠ none ∨ updates.epic_name ≠ none) →
      (apply_local_project_item_updates remote project fields hasToken item updates
        editor now).2 = Except.ok item' →
      item'.last_local_edit_at = some now ∧ item'.last_local_edit_by = editor) := by
  constructor
  · intro remote project fields hasToken item editor now
    rfl
  · intro remote project fields hasToken item updates editor now item' hkey hok
    have hne : updates.isEmpty = false := by
      cases h : updates.isEmpty
      · rfl
      · rcases (updates_isEmpty_spec updates).mp h with ⟨h1, h2, h3, h4, h5, h6, h7, h8⟩
        rcases hkey with hk | hk | hk | hk | hk | hk | hk <;> simp_all
    unfold apply_local_project_item_updates at hok
    rw [hne] at hok
    simp only [Bool.false_eq_true, if_false] at hok
    by_cases hd : dateOrderInvalid (ensure_timezone ((updates.start_date).bind id))
        (ensure_timezone ((updates.end_date).bind id)) = true
    · rw [if_pos hd] at hok
      exact absurd hok (by simp)
    · rw [if_neg hd] at hok
      cases hstep : statusStep remote project fields hasToken item updates with
      | mk calls r =>
        rw [hstep] at hok
        cases r with
        | error e => exact absurd hok (by simp)
        | ok acc0 =>
          simp only [apply_ite Prod.snd] at hok
          have hch : (epicStep fields (iterationStep fields
              (dateSteps acc0 updates (ensure_timezone ((updates.start_date).bind id))
                (ensure_timezone ((updates.end_date).bind id))
                (ensure_timezone ((updates.due_date).bind id))) updates)
              updates).has_changes = true := by
            rcases hkey with hk | hk | hk | hk | hk | hk | hk
            · cases hs : updates.status with
              | none => exact absurd hs hk
              | some raw =>
                have hset := statusStep_sets remote project fields hasToken item updates raw
                  calls acc0 hs hstep
                exact epicStep_pres _ _ _ (iterationStep_pres _ _ _
                  (dateSteps_pres _ _ _ _ _ hset))
            · exact epicStep_pres _ _ _ (iterationStep_pres _ _ _
                (dateSteps_sets _ _ _ _ _ (Or.inl hk)))
            · exact epicStep_pres _ _ _ (iterationStep_pres _ _ _
                (dateSteps_sets _ _ _ _ _ (Or.inr (Or.inl hk))))
            · exact epicStep_pres _ _ _ (iterationStep_pres _ _ _
                (dateSteps_sets _ _ _ _ _ (Or.inr (Or.inr hk))))
            · exact epicStep_pres _ _ _ (iterationStep_sets _ _ _ hk)
            · exact epicStep_sets _ _ _ (Or.inl hk)
            · exact epicStep_sets _ _ _ (Or.inr hk)
          rw [if_pos hch] at hok
          injection hok with hitem
          rw [← hitem]
          exact ⟨rfl, rfl⟩

open Boardlly in
/-- Witness for C10 (amended): a concrete status-only edit on a project
with no declared columns is accepted and stamps the provenance. -/
theorem C10_empty_changeset_frame_witness :
    (({ status := some (some "Done") } : Updates).status ≠ none ∨
      ({ status := some (some "Done") } : Updates).start_date ≠ none ∨
      ({ status := some (some "Done") } : Updates).end_date ≠ none ∨
      ({ status := some (some "Done") } : Updates).due_date ≠ none ∨
      ({ status := some (some "Done") } : Updates).iteration_id ≠ none ∨
      ({ status := some (some "Done") } : Updates).epic_option_id ≠ none ∨
      ({ status := some (some "Done") } : Updates).epic_name ≠ none) ∧
    (apply_local_project_item_updates (fun _ => .ok ()) ⟨"P1", none⟩
        [⟨7, "FS", "Status", "SINGLE_SELECT",
          some (.plist [{ id := some "opt-d", name := some "Done" }])⟩] true
        { item_node_id := "I1" } { status := some (some "Done") } (some "ed") 99).2 =
      Except.ok
        { item_node_id := "I1"
          status := some "Done"
          last_local_edit_at := some 99
          last_local_edit_by := some "ed" } ∧
    (({ item_node_id := "I1"
        status := some "Done"
        last_local_edit_at := some 99
        last_local_edit_by := some "ed" } : ItemState).last_local_edit_at = some 99 ∧
      ({ item_node_id := "I1"
         status := some "Done"
         last_local_edit_at := some 99
         last_local_edit_by := some "ed" } : ItemState).last_local_edit_by = some "ed") := by
  refine ⟨Or.inl (by decide), by rfl, ?_⟩
  exact C10_empty_changeset_frame.2 (fun _ => .ok ()) ⟨"P1", none⟩
    [⟨7, "FS", "Status", "SINGLE_SELECT",
      some (.plist [{ id := some "opt-d", name := some "Done" }])⟩] true
    { item_node_id := "I1" } { status := some (some "Done") } (some "ed") 99 _
    (Or.inl (by decide)) (by rfl)

open Boardlly in
/-- C3: for every status edit whose normalized new value differs from the
item's (normalized) current status — with valid dates, a value passing the
column validation, truthy node ids, credentials, and a resolvable cached
status field — the propagator mirrors remotely before committing locally:
a null target issues exactly one clear-field mutation, a target matched
case-insensitively against the cached option list issues exactly one
update-single-select mutation with the matched option id, a non-null
target with no matching option is rejected with 422 and no mutation, and
a failing mutation aborts the edit with the remote error, so nothing is
committed locally. -/
theorem C3_status_remote_mirroring (remote : RemoteOracle) (project : ProjectState)
    (fields : List FieldRow) (item : ItemState) (updates : Updates)
    (editor : Option String) (now : Int) (raw : Option String) (sf : FieldRow)
    (h_status : updates.status = some raw)
    (h_dates : dateOrderInvalid (ensure_timezone ((updates.start_date).bind id))
      (ensure_timezone ((updates.end_date).bind id)) = false)
    (h_val : statusRejected (normalizeStatusValue raw) project.status_columns = false)
    (h_diff : normalizeStatusValue raw ≠ item.status.map pyStrip)
    (h_pid : project.project_node_id ≠ "")
    (h_iid : item.item_node_id ≠ "")
    (h_sf : _resolve_status_field fields = some sf) :
    (normalizeStatusValue raw = none →
      (apply_local_project_item_updates remote project fields true item updates editor
        now).1 =
        [RemoteCall.clearFieldValue project.project_node_id item.item_node_id
          sf.field_id]) ∧
    (∀ v oid, normalizeStatusValue raw = some v →
      _match_status_option sf.options v = some oid →
      (apply_local_project_item_updates remote project fields true item updates editor
        now).1 =
        [RemoteCall.updateSingleSelect project.project_node_id item.item_node_id
          sf.field_id oid]) ∧
    (∀ v, normalizeStatusValue raw = some v → _match_status_option sf.options v = none →
      apply_local_project_item_updates remote project fields true item updates editor now =
        ([], Except.error ⟨422, "Status indisponível no GitHub"⟩)) ∧
    (∀ (c : RemoteCall) (e : HErr),
      (apply_local_project_item_updates remote project fields true item updates editor
        now).1 = [c] →
      remote c = .error e →
      (apply_local_project_item_updates remote project fields true item updates editor
        now).2 = Except.error e) := by
  have hne : updates.isEmpty = false := by
    cases h : updates.isEmpty
    · rfl
    · rcases (updates_isEmpty_spec updates).mp h with ⟨hs, _⟩
      rw [h_status] at hs
      cases hs
  have hsync : _sync_remote_status remote project fields true item (normalizeStatusValue raw) =
      (match normalizeStatusValue raw with
       | none =>
         ([RemoteCall.clearFieldValue project.project_node_id item.item_node_id sf.field_id],
          remote (RemoteCall.clearFieldValue project.project_node_id item.item_node_id
            sf.field_id))
       | some s =>
         match _match_status_option sf.options s with
         | none => ([], Except.error ⟨422, "Status indisponível no GitHub"⟩)
         | some oid =>
           ([RemoteCall.updateSingleSelect project.project_node_id item.item_node_id
              sf.field_id oid],
            remote (RemoteCall.updateSingleSelect project.project_node_id item.item_node_id
              sf.field_id oid))) := by
    unfold _sync_remote_status
    rw [if_neg h_pid, if_neg h_iid, h_sf]
    dsimp only
    rw [if_neg (by simp)]
  have hstep : statusStep remote project fields true item updates =
      (match _sync_remote_status remote project fields true item
          (normalizeStatusValue raw) with
       | (calls, .error e) => (calls, .error e)
       | (calls, .ok _) =>
         (calls, Except.ok ⟨{ item with status := normalizeStatusValue raw }, true⟩)) := by
    unfold statusStep
    rw [h_status]
    dsimp only
    rw [if_neg (by simp [h_val]), if_pos h_diff]
  have happly : ∀ X, statusStep remote project fields true item updates = X →
      apply_local_project_item_updates remote project fields true item updates editor now =
      (match X with
       | (calls, .error e) => (calls, .error e)
       | (calls, .ok acc0) =>
         (calls, Except.ok
           (let acc3 := epicStep fields (iterationStep fields
              (dateSteps acc0 updates (ensure_timezone ((updates.start_date).bind id))
                (ensure_timezone ((updates.end_date).bind id))
                (ensure_timezone ((updates.due_date).bind id))) updates) updates
            if acc3.has_changes then
              { acc3.item with
                last_local_edit_at := some now
                last_local_edit_by := editor }
            else acc3.item))) := by
    intro X hX
    unfold apply_local_project_item_updates
    rw [hne]
    simp only [Bool.false_eq_true, if_false]
    rw [if_neg (by simpa [Function.id_def] using h_dates), hX]
    rcases X with ⟨calls, r⟩
    cases r with
    | error e => rfl
    | ok acc0 =>
      dsimp only
      split <;> simp_all
  refine ⟨?_, ?_, ?_, ?_⟩
  · intro hnone
    cases hr : remote (RemoteCall.clearFieldValue project.project_node_id item.item_node_id
        sf.field_id) with
    | error e =>
      rw [happly ([RemoteCall.clearFieldValue project.project_node_id item.item_node_id
          sf.field_id], Except.error e) (by rw [hstep, hsync, hnone]; dsimp only; rw [hr])]
    | ok u =>
      rw [happly ([RemoteCall.clearFieldValue project.project_node_id item.item_node_id
          sf.field_id], Except.ok ⟨{ item with status := none }, true⟩)
        (by rw [hstep, hsync, hnone]; dsimp only; rw [hr])]
  · intro v oid hv hm
    cases hr : remote (RemoteCall.updateSingleSelect project.project_node_id item.item_node_id
        sf.field_id oid) with
    | error e =>
      rw [happly ([RemoteCall.updateSingleSelect project.project_node_id item.item_node_id
          sf.field_id oid], Except.error e)
        (by rw [hstep, hsync, hv]; dsimp only; rw [hm]; dsimp only; rw [hr])]
    | ok u =>
      rw [happly ([RemoteCall.updateSingleSelect project.project_node_id item.item_node_id
          sf.field_id oid], Except.ok ⟨{ item with status := some v }, true⟩)
        (by rw [hstep, hsync, hv]; dsimp only; rw [hm]; dsimp only; rw [hr])]
  · intro v hv hm
    rw [happly ([], Except.error ⟨422, "Status indisponível no GitHub"⟩)
      (by rw [hstep, hsync, hv]; dsimp only; rw [hm])]
  · intro c e htrace hremote
    cases hn : normalizeStatusValue raw with
    | none =>
      cases hr : remote (RemoteCall.clearFieldValue project.project_node_id item.item_node_id
          sf.field_id) with
      | error e' =>
        rw [happly ([RemoteCall.clearFieldValue project.project_node_id item.item_node_id
            sf.field_id], Except.error e') (by rw [hstep, hsync, hn]; dsimp only; rw [hr])] at htrace ⊢
        dsimp only at htrace ⊢
        have hc : RemoteCall.clearFieldValue project.project_node_id item.item_node_id
            sf.field_id = c := by
          injection htrace with h1 h2
        rw [← hc] at hremote
        rw [hremote] at hr
        injection hr with he
        rw [← he]
      | ok u =>
        rw [happly ([RemoteCall.clearFieldValue project.project_node_id item.item_node_id
            sf.field_id], Except.ok ⟨{ item with status := none }, true⟩)
          (by rw [hstep, hsync, hn]; dsimp only; rw [hr])] at htrace
        dsimp only at htrace
        have hc : RemoteCall.clearFieldValue project.project_node_id item.item_node_id
            sf.field_id = c := by
          injection htrace with h1 h2
        rw [← hc] at hremote
        rw [hremote] at hr
        simp at hr
    | some v =>
      cases hm : _match_status_option sf.options v with
      | none =>
        rw [happly ([], Except.error ⟨422, "Status indisponível no GitHub"⟩)
          (by rw [hstep, hsync, hn]; dsimp only; rw [hm])] at htrace
        simp at htrace
      | some oid =>
        cases hr : remote (RemoteCall.updateSingleSelect project.project_node_id
            item.item_node_id sf.field_id oid) with
        | error e' =>
          rw [happly ([RemoteCall.updateSingleSelect project.project_node_id item.item_node_id
              sf.field_id oid], Except.error e')
            (by rw [hstep, hsync, hn]; dsimp only; rw [hm]; dsimp only; rw [hr])] at htrace ⊢
          dsimp only at htrace ⊢
          have hc : RemoteCall.updateSingleSelect project.project_node_id item.item_node_id
              sf.field_id oid = c := by
            injection htrace with h1 h2
          rw [← hc] at hremote
          rw [hremote] at hr
          injection hr with he
          rw [← he]
        | ok u =>
          rw [happly ([RemoteCall.updateSingleSelect project.project_node_id item.item_node_id
              sf.field_id oid], Except.ok ⟨{ item with status := some v }, true⟩)
            (by rw [hstep, hsync, hn]; dsimp only; rw [hm]; dsimp only; rw [hr])] at htrace
          dsimp only at htrace
          have hc : RemoteCall.updateSingleSelect project.project_node_id item.item_node_id
              sf.field_id oid = c := by
            injection htrace with h1 h2
          rw [← hc] at hremote
          rw [hremote] at hr
          simp at hr

open Boardlly in
/-- Witness for C3: editing status "Backlog" → "Done" on a project whose
cached status field has options Done(opt-d)/Backlog(opt-b) issues exactly
one update-single-select mutation with option id opt-d. -/
theorem C3_status_remote_mirroring_witness :
    normalizeStatusValue (some "Done") = some "Done" ∧
    _match_status_option statusFieldEx.options "Done" = some "opt-d" ∧
    (apply_local_project_item_updates (fun _ => .ok ()) projEx [statusFieldEx] true itemEx
        { status := some (some "Done") } (some "ed") 99).1 =
      [RemoteCall.updateSingleSelect "PROJ1" "ITEM1" "FS" "opt-d"] := by
  refine ⟨by decide, by decide, ?_⟩
  have h := (C3_status_remote_mirroring (fun _ => .ok ()) projEx [statusFieldEx] itemEx
      { status := some (some "Done") } (some "ed") 99 (some "Done") statusFieldEx
      rfl (by decide) (by decide) (by decide) (by decide) (by decide) (by decide)).2.1
  exact h "Done" "opt-d" (by decide) (by decide)

open Boardlly in
/-- The status mirroring only ever issues clear or update-single-select
mutations, never a set-iteration mutation. -/
theorem sync_remote_status_no_set_iteration (remote : RemoteOracle) (project : ProjectState)
    (fields : List FieldRow) (hasToken : Bool) (item : ItemState) (ns : Option String) :
    ∀ c ∈ (_sync_remote_status remote project fields hasToken item ns).1,
      isSetIteration c = false := by
  unfold _sync_remote_status
  repeat' split
  all_goals intro c hc
  all_goals simp_all [isSetIteration]

open Boardlly in
/-- The status block issues only the mutations of the status mirroring. -/
theorem statusStep_no_set_iteration (remote : RemoteOracle) (project : ProjectState)
    (fields : List FieldRow) (hasToken : Bool) (item : ItemState) (updates : Updates) :
    ∀ c ∈ (statusStep remote project fields hasToken item updates).1,
      isSetIteration c = false := by
  intro c hc
  unfold statusStep at hc
  cases hs : updates.status with
  | none =>
    rw [hs] at hc
    simp at hc
  | some raw =>
    rw [hs] at hc
    dsimp only at hc
    by_cases hrej : statusRejected (normalizeStatusValue raw) project.status_columns = true
    · rw [if_pos hrej] at hc
      simp at hc
    · rw [if_neg hrej] at hc
      by_cases hdiff : normalizeStatusValue raw ≠ item.status.map pyStrip
      · rw [if_pos hdiff] at hc
        cases hsync : _sync_remote_status remote project fields hasToken item
            (normalizeStatusValue raw) with
        | mk cs r =>
          rw [hsync] at hc
          cases r with
          | error e =>
            refine sync_remote_status_no_set_iteration remote project fields hasToken item
              (normalizeStatusValue raw) c ?_
            rw [hsync]
            exact hc
          | ok v =>
            refine sync_remote_status_no_set_iteration remote project fields hasToken item
              (normalizeStatusValue raw) c ?_
            rw [hsync]
            exact hc
      · rw [if_neg hdiff] at hc
        simp at hc

open Boardlly in
/-- The propagator as a whole never issues a set-iteration mutation: its
only remote calls come from the status block. -/
theorem apply_local_no_set_iteration (remote : RemoteOracle) (project : ProjectState)
    (fields : List FieldRow) (hasToken : Bool) (item : ItemState) (updates : Updates)
    (editor : Option String) (now : Int) :
    ∀ c ∈ (apply_local_project_item_updates remote project fields hasToken item updates
      editor now).1, isSetIteration c = false := by
  intro c hc
  unfold apply_local_project_item_updates at hc
  by_cases he : updates.isEmpty = true
  · rw [if_pos he] at hc
    simp at hc
  · rw [if_neg he] at hc
    dsimp only at hc
    by_cases hd : dateOrderInvalid (ensure_timezone ((updates.start_date).bind id))
        (ensure_timezone ((updates.end_date).bind id)) = true
    · rw [if_pos hd] at hc
      simp at hc
    · rw [if_neg hd] at hc
      cases hstep : statusStep remote project fields hasToken item updates with
      | mk calls r =>
        rw [hstep] at hc
        cases r with
        | error e =>
          refine statusStep_no_set_iteration remote project fields hasToken item updates c ?_
          rw [hstep]
          exact hc
        | ok acc0 =>
          simp only [apply_ite Prod.fst] at hc
          refine statusStep_no_set_iteration remote project fields hasToken item updates c ?_
          rw [hstep]
          simpa using hc

open Boardlly in
/-- C1 counterexample: a changeset carrying only an iteration id, applied
through `apply_local_project_item_updates` with an iteration field cached,
persists the resolved iteration locally while issuing zero remote
mutations — refuting the claim that this path issues a remote
"set iteration value" mutation before persisting. -/
theorem C1_iteration_counterexample :
    (apply_local_project_item_updates (fun _ => .ok ()) projEx [iterFieldEx] true itemEx
        { iteration_id := some (some "it-1") } (some "ed") 1000).1 = [] ∧
    (apply_local_project_item_updates (fun _ => .ok ()) projEx [iterFieldEx] true itemEx
        { iteration_id := some (some "it-1") } (some "ed") 1000).2 =
      Except.ok { itemEx with
        iteration := some "Sprint 1"
        iteration_id := some "it-1"
        iteration_start := some 1735689600
        iteration_end := some 1736899200
        last_local_edit_at := some 1000
        last_local_edit_by := some "ed" } :=
  ⟨rfl, rfl⟩

open Boardlly in
/-- C1 (amended): `apply_local_project_item_updates` never issues a
set-iteration mutation — its iteration branch resolves from the cached
options and writes locally only; the remote iteration mirroring lives in
the separate `update_item_iteration` path, which issues exactly one
set-iteration mutation for a present id (and one clear-field mutation for
an absent id), sets (or clears) the local iteration columns only after
the mutation succeeds, and propagates a remote failure without persisting
anything. -/
theorem C1_iteration_local_only_amended :
    (∀ (remote : RemoteOracle) (project : ProjectState) (fields : List FieldRow)
        (hasToken : Bool) (item : ItemState) (updates : Updates) (editor : Option String)
        (now : Int),
      ∀ c ∈ (apply_local_project_item_updates remote project fields hasToken item updates
        editor now).1, isSetIteration c = false) ∧
    (∀ (remote : RemoteOracle) (project : ProjectState) (fields : List FieldRow)
        (item : ItemState) (f : FieldRow) (s : String),
      _resolve_iteration_field_from_collection fields = some f → s ≠ "" →
      (update_item_iteration remote project fields true item (some s)).1 =
        [RemoteCall.setIteration project.project_node_id item.item_node_id f.field_id s] ∧
      (remote (RemoteCall.setIteration project.project_node_id item.item_node_id
          f.field_id s) = Except.ok () →
        (update_item_iteration remote project fields true item (some s)).2 =
          Except.ok { item with
            iteration := (resolve_iteration_option (some f) (some s)).1
            iteration_id := some s
            iteration_start := (resolve_iteration_option (some f) (some s)).2.1
            iteration_end := (resolve_iteration_option (some f) (some s)).2.2 }) ∧
      (∀ e, remote (RemoteCall.setIteration project.project_node_id item.item_node_id
          f.field_id s) = Except.error e →
        (update_item_iteration remote project fields true item (some s)).2 =
          Except.error e)) ∧
    (∀ (remote : RemoteOracle) (project : ProjectState) (fields : List FieldRow)
        (item : ItemState) (f : FieldRow),
      _resolve_iteration_field_from_collection fields = some f →
      (update_item_iteration remote project fields true item none).1 =
        [RemoteCall.clearFieldValue project.project_node_id item.item_node_id f.field_id] ∧
      (remote (RemoteCall.clearFieldValue project.project_node_id item.item_node_id
          f.field_id) = Except.ok () →
        (update_item_iteration remote project fields true item none).2 =
          Except.ok { item with
            iteration := none
            iteration_id := none
            iteration_start := none
            iteration_end := none }) ∧
      (∀ e, remote (RemoteCall.clearFieldValue project.project_node_id item.item_node_id
          f.field_id) = Except.error e →
        (update_item_iteration remote project fields true item none).2 =
          Except.error e)) := by
  refine ⟨apply_local_no_set_iteration, ?_, ?_⟩
  · intro remote project fields item f s hf hs
    unfold update_item_iteration
    rw [hf]
    dsimp only
    rw [if_neg (by simp), if_pos (by simp [truthyStr, hs])]
    simp only [Option.getD_some]
    refine ⟨?_, ?_, ?_⟩
    · cases hr : remote (RemoteCall.setIteration project.project_node_id item.item_node_id
          f.field_id s) <;> rfl
    · intro hok
      rw [hok]
    · intro e herr
      rw [herr]
  · intro remote project fields item f hf
    unfold update_item_iteration
    rw [hf]
    dsimp only
    rw [if_neg (by simp), if_neg (by simp [truthyStr])]
    refine ⟨?_, ?_, ?_⟩
    · cases hr : remote (RemoteCall.clearFieldValue project.project_node_id item.item_node_id
          f.field_id) <;> rfl
    · intro hok
      rw [hok]
    · intro e herr
      rw [herr]

open Boardlly in
/-- Witness for C1 (amended): on a concrete cached iteration field, a
present iteration id issues exactly one set-iteration mutation. -/
theorem C1_iteration_local_only_amended_witness :
    _resolve_iteration_field_from_collection [iterFieldEx] = some iterFieldEx ∧
    "it-1" ≠ "" ∧
    (update_item_iteration (fun _ => .ok ()) projEx [iterFieldEx] true itemEx
        (some "it-1")).1 =
      [RemoteCall.setIteration "PROJ1" "ITEM1" "FIT" "it-1"] := by
  refine ⟨by decide, by decide, ?_⟩
  exact (C1_iteration_local_only_amended.2.1 (fun _ => .ok ()) projEx [iterFieldEx]
    itemEx iterFieldEx "it-1" (by decide) (by decide)).1

open Boardlly in
/-- C6 counterexample: a request with neither an X-GitHub-Event header nor
an X-Hub-Signature-256 header invokes no handler but is answered with 400
(the event-header check runs first), not with the 401 the claim
asserts for every missing-signature request. -/
theorem C6_webhook_counterexample :
    receive_github_webhook (fun _ _ => "deadbeef") (some "secret") (fun _ => false)
        { event := none, signature := none, body := [1, 2, 3] } =
      (none, Except.error ⟨400, "Missing X-GitHub-Event header"⟩) ∧
    (400 : Nat) ≠ 401 :=
  ⟨rfl, by decide⟩

open Boardlly in
/-- C6 (amended): with the webhook secret configured, every request whose
X-Hub-Signature-256 header is missing, falsy, not "sha256="-prefixed, or
whose hex part differs from the HMAC-SHA256 digest of the raw body under
the shared secret (hence any tampered body) invokes no event handler — so
no resync is triggered — and, whenever the X-GitHub-Event header is
present, is answered with status 401 (a request also missing the event
header is answered 400, still without invoking a handler). -/
theorem C6_webhook_bad_signature (hmacHex : HmacFun) (secret : String)
    (handlerFails : String → Bool) (req : WebhookRequest)
    (hsec : secret ≠ "") (hbad : badSignature hmacHex secret req) :
    (receive_github_webhook hmacHex (some secret) handlerFails req).1 = none ∧
    (truthyStr req.event = true →
      ∃ d, (receive_github_webhook hmacHex (some secret) handlerFails req).2 =
        Except.error ⟨401, d⟩) := by
  unfold receive_github_webhook
  by_cases hev : truthyStr req.event = true
  · rw [if_neg (by simp [hev])]
    cases hsig : req.signature with
    | none =>
      rw [if_pos (by simp [truthyStr])]
      exact ⟨rfl, fun _ => ⟨"Missing X-Hub-Signature-256 header", rfl⟩⟩
    | some s =>
      unfold badSignature at hbad
      rw [hsig] at hbad
      by_cases hse : s = ""
      · rw [if_pos (by simp [truthyStr, hse])]
        exact ⟨rfl, fun _ => ⟨"Missing X-Hub-Signature-256 header", rfl⟩⟩
      · rw [if_neg (by simp [truthyStr, hse]), if_neg (by simp [truthyStr, hsec])]
        dsimp only
        unfold verify_webhook_signature
        simp only [Option.getD_some]
        by_cases hpre : pyStartsWith s "sha256=" = true
        · have hdig : splitEqTail s ≠ hmacHex secret req.body := by
            rcases hbad with h | h | h
            · exact absurd h hse
            · exact absurd hpre h
            · exact h
          rw [if_neg (by simp [hse, hpre])]
          rw [if_pos hdig]
          exact ⟨rfl, fun _ => ⟨"Invalid signature", rfl⟩⟩
        · rw [if_pos (by simp [hpre])]
          exact ⟨rfl, fun _ => ⟨"Invalid signature format", rfl⟩⟩
  · rw [if_pos (by simp [hev])]
    exact ⟨rfl, fun h => absurd h hev⟩

open Boardlly in
/-- Witness for C6 (amended): a concrete request whose provided hex digest
differs from the recomputed one is answered 401 and no handler runs. -/
theorem C6_webhook_bad_signature_witness :
    ("secret" : String) ≠ "" ∧
    badSignature (fun _ _ => "aaaa") "secret"
      { event := some "issues", signature := some "sha256=bbbb", body := [1, 2] } ∧
    (receive_github_webhook (fun _ _ => "aaaa") (some "secret") (fun _ => false)
        { event := some "issues", signature := some "sha256=bbbb", body := [1, 2] }).1 =
      none ∧
    (∃ d, (receive_github_webhook (fun _ _ => "aaaa") (some "secret") (fun _ => false)
        { event := some "issues", signature := some "sha256=bbbb", body := [1, 2] }).2 =
      Except.error ⟨401, d⟩) := by
  have hbad : badSignature (fun _ _ => "aaaa") "secret"
      { event := some "issues", signature := some "sha256=bbbb", body := [1, 2] } := by
    unfold badSignature
    right
    right
    decide
  have h := C6_webhook_bad_signature (fun _ _ => "aaaa") "secret" (fun _ => false)
    { event := some "issues", signature := some "sha256=bbbb", body := [1, 2] }
    (by decide) hbad
  exact ⟨by decide, hbad, h.1, h.2 (by decide)⟩
